import Mathlib

/-!
Shallow embedding of the `shufflequiz` repository (files `shufflequiz.py` and
`quiz2moodlexml.py`) together with theorems settling the specification claims.

Namespace `SQ` embeds `shufflequiz.py`; namespace `MQ` embeds
`quiz2moodlexml.py`.  Text is modelled as Lean `String` (a wrapper around
`List Char`); Python's arbitrary-precision numbers as `Nat`/`Int`; Python
floats as exact rationals `ℚ`; a Python function that can raise is modelled
with `Option`/`Except`.  The `None`-attribute crash that CPython raises as
`AttributeError` is modelled by a dedicated error constructor.
-/

instance {ε α : Type} [DecidableEq ε] [DecidableEq α] :
    DecidableEq (Except ε α) := fun x y =>
  match x, y with
  | .error e, .error f =>
    if h : e = f then isTrue (by rw [h]) else isFalse (by simp [h])
  | .error _, .ok _ => isFalse (by simp)
  | .ok _, .error _ => isFalse (by simp)
  | .ok a, .ok b =>
    if h : a = b then isTrue (by rw [h]) else isFalse (by simp [h])

/-- Characters stripped by Python's `str.strip`/`str.rstrip` with no
argument (`str.isspace` on ASCII input). -/
def py_isspace (c : Char) : Bool :=
  c = ' ' || c = '\t' || c = '\n' || c = '\r' || c = '\x0b' || c = '\x0c'

/-- Python `s.rstrip()` on the character list of a string. -/
def rstripChars (l : List Char) : List Char :=
  (l.reverse.dropWhile py_isspace).reverse

/-- Python `s.strip()` on the character list of a string. -/
def stripChars (l : List Char) : List Char :=
  rstripChars (l.dropWhile py_isspace)

/-- Python `s.strip()`. -/
def pystrip (s : String) : String :=
  String.mk (stripChars s.data)

/-- Python `s.startswith(p)`. -/
def py_startswith (s p : String) : Bool :=
  decide (s.data.take p.data.length = p.data)

/-- Replaces the last element of a list by its image under `f`; models a
Python mutation of the object referenced by the list's last cell. -/
def updateLast {α : Type} (f : α → α) : List α → List α
  | [] => []
  | [a] => [f a]
  | a :: b :: rest => a :: updateLast f (b :: rest)

namespace SQ

/-- `_QUESTION_MARK` of `shufflequiz.py`. -/
def QUESTION_MARK : String := "pregunta"

/-- `_DESCRIPTION_MARK` of `shufflequiz.py`. -/
def DESCRIPTION_MARK : String := "enunciat"

/-- `_ANSWER_MARK` of `shufflequiz.py`. -/
def ANSWER_MARK : String := "resposta"

/-- `is_a_comment` of `shufflequiz.py`. -/
def is_a_comment (lin : String) : Bool :=
  py_startswith lin ".. #" || py_startswith lin ".. /"

/-- `is_a_question` of `shufflequiz.py`. -/
def is_a_question (lin : String) : Bool :=
  py_startswith lin (".. " ++ QUESTION_MARK ++ ":")

/-- `is_a_description` of `shufflequiz.py`. -/
def is_a_description (lin : String) : Bool :=
  py_startswith lin (".. " ++ DESCRIPTION_MARK ++ ":")

/-- `is_an_answer` of `shufflequiz.py`. -/
def is_an_answer (lin : String) : Bool :=
  py_startswith lin (".. " ++ ANSWER_MARK ++ ":")

/-- `process_answer_mark` of `shufflequiz.py`: Python's `line[-1:]` and
`line[-2:-1]` slices are `l.drop (l.length - 1)` and
`l.dropLast.drop (l.length - 2)` on the character list. -/
def process_answer_mark (lin : String) : Option (Bool × Bool) :=
  if is_an_answer lin then
    let line := rstripChars lin.data
    let fin : Bool := decide (line.drop (line.length - 1) = ['f'])
    let value : List Char :=
      if fin then line.dropLast.drop (line.length - 2)
      else line.drop (line.length - 1)
    if value = ['+'] ∨ value = ['-'] then some (decide (value = ['+']), fin)
    else none
  else none

/-- Class `Answer` of `shufflequiz.py`. -/
structure Answer where
  is_correct : Bool
  is_final : Bool
  text : String
  weight : ℚ
deriving DecidableEq, Inhabited

/-- `Answer.add_description`. -/
def Answer.add_description (a : Answer) (text : String) : Answer :=
  { a with text := a.text ++ text }

/-- `Answer.set_weight`. -/
def Answer.set_weight (a : Answer) (weight : ℚ) : Answer :=
  { a with weight := weight }

/-- `Answer.is_complete`. -/
def Answer.is_complete (a : Answer) : Bool :=
  a.text != ""

/-- `Answer.postprocess`. -/
def Answer.postprocess (a : Answer) : Answer :=
  { a with text := pystrip a.text }

/-- The configuration knobs of `shufflequiz.py` read by the core
(`options` object produced by `argparse`). -/
structure Options where
  placefinals : Bool
  maxanswers : Nat
  shuffleanswers : Bool
  shufflequestions : Bool
  shufflefiles : Bool
deriving DecidableEq

/-- Class `Question` of `shufflequiz.py`.  In the Python source
`current_answer` is a reference to the most recently added `Answer`
object, which is also the last element of `answers` or of
`final_answers`; here it records which of the two lists holds that
last-added answer (`some true` = `final_answers`, `some false` =
`answers`, `none` = Python `None`). -/
structure Question where
  title : String
  descr : String
  answers : List Answer
  final_answers : List Answer
  current_answer : Option Bool
deriving DecidableEq

/-- The state of a fresh `Question(options)` (its `reset`). -/
def Question.initial : Question :=
  { title := "", descr := "", answers := [], final_answers := [],
    current_answer := none }

/-- `Question.reset`. -/
def Question.reset (_q : Question) : Question := Question.initial

/-- `Question.appendToTitle`. -/
def Question.appendToTitle (q : Question) (title : String) : Question :=
  let cleantitle := pystrip title
  if cleantitle ≠ "" then { q with title := q.title ++ " " ++ cleantitle }
  else q

/-- `Question.add_description`. -/
def Question.add_description (q : Question) (descr : String) : Question :=
  { q with descr := q.descr ++ descr }

/-- `Question.addAnswer`. -/
def Question.addAnswer (opts : Options) (q : Question) (answer : Answer) :
    Question :=
  if answer.is_final && opts.placefinals then
    { q with final_answers := q.final_answers ++ [answer],
             current_answer := some true }
  else
    { q with answers := q.answers ++ [answer], current_answer := some false }

/-- `Question.get_nr_answers`. -/
def Question.get_nr_answers (q : Question) : Nat :=
  q.answers.length + q.final_answers.length

/-- `Question.has_proper_title`. -/
def Question.has_proper_title (q : Question) : Bool :=
  q.title != ""

/-- `Question.has_proper_description`. -/
def Question.has_proper_description (q : Question) : Bool :=
  q.descr != ""

/-- `Question.has_finished_current_answer`: Python evaluates
`self.current_answer.is_complete()`, which raises `AttributeError` when
`current_answer` is `None`; that crash is the `none` result.  When
`current_answer` is set it is the last element of the recorded list
(that list is non-empty by construction). -/
def Question.has_finished_current_answer (q : Question) : Option Bool :=
  match q.current_answer with
  | none => none
  | some true => some (q.final_answers.getLastD default).is_complete
  | some false => some (q.answers.getLastD default).is_complete

/-- `Question.is_complete`, with Python's short-circuit `and`: the
crashing third conjunct is only evaluated when the first two hold. -/
def Question.is_complete (q : Question) : Option Bool :=
  if q.has_proper_title then
    if q.has_proper_description then q.has_finished_current_answer
    else some false
  else some false

/-- `Question.clone`: copies title, description and the two answer lists;
the clone's `current_answer` is the fresh `None` from `reset`. -/
def Question.clone (q : Question) : Question :=
  { title := q.title, descr := q.descr, answers := q.answers,
    final_answers := q.final_answers, current_answer := none }

/-- Appending a content line to the current answer
(`question.current_answer.add_description(lin)`); `none` models the
`AttributeError` raised when `current_answer` is Python `None`. -/
def Question.current_answer_add_description (q : Question) (lin : String) :
    Option Question :=
  match q.current_answer with
  | none => none
  | some true =>
    some { q with final_answers :=
                    updateLast (fun a => a.add_description lin) q.final_answers }
  | some false =>
    some { q with answers :=
                    updateLast (fun a => a.add_description lin) q.answers }

/-- The traversal order `self.answers + self.final_answers` used by
`_compute_weights`, `_rst_compose_answers` and `toEval`. -/
def Question.all_answers (q : Question) : List Answer :=
  q.answers ++ q.final_answers

/-- `Question._compute_weights` (float arithmetic modelled exactly in ℚ). -/
def Question.compute_weights (q : Question) : Question :=
  let answers := q.answers ++ q.final_answers
  let nr_correct_answers := (answers.filter (fun a => a.is_correct)).length
  let nr_incorrect_answers := answers.length - nr_correct_answers
  let correct_weight : ℚ :=
    if nr_correct_answers > 0 then 1 / nr_correct_answers else 0
  let incorrect_weight : ℚ :=
    if nr_incorrect_answers > 0 then -1 / nr_incorrect_answers else 0
  let assign := fun a : Answer =>
    if a.is_correct then a.set_weight correct_weight
    else a.set_weight incorrect_weight
  { q with answers := q.answers.map assign,
           final_answers := q.final_answers.map assign }

/-- The scanner states of `Quiz._scan_quiz_file`. -/
inductive ScanState where
  | question
  | title
  | description
  | answer
deriving DecidableEq

/-- A fatal scan outcome: `show_scan_error_and_exit` (file name, 1-based
line number, message) or an uncaught Python `AttributeError`. -/
inductive ScanError where
  | scanError (filename : String) (line : Nat) (msg : String)
  | attributeError
deriving DecidableEq

/-- `Quiz._scan_question`. -/
def scan_question (filename : String) (lin : String) (nlin : Nat)
    (question : Question) : Except ScanError (ScanState × Question) :=
  if is_a_question lin then .ok (.title, question.reset)
  else if is_a_description lin || is_an_answer lin then
    .error (.scanError filename nlin "expected question but another mark found")
  else .ok (.question, question)

/-- `Quiz._scan_title`. -/
def scan_title (filename : String) (lin : String) (nlin : Nat)
    (question : Question) : Except ScanError (ScanState × Question) :=
  if is_a_question lin then
    .error (.scanError filename nlin "unexpected start of question")
  else if is_a_description lin then
    if question.has_proper_title then .ok (.description, question)
    else .error (.scanError filename nlin "question title unset")
  else if is_an_answer lin then
    .error (.scanError filename nlin "unexpected start of answer")
  else if !(is_a_comment lin) then .ok (.title, question.appendToTitle lin)
  else .ok (.title, question)

/-- `Quiz._process_current_answer`. -/
def process_current_answer (filename : String) (opts : Options)
    (lin : String) (nlin : Nat) (question : Question) :
    Except ScanError Question :=
  match process_answer_mark lin with
  | none => .error (.scanError filename nlin "badformed answer header")
  | some (is_correct, is_final) =>
    .ok (question.addAnswer opts (Answer.mk is_correct is_final "" 0))

/-- `Quiz._scan_description`. -/
def scan_description (filename : String) (opts : Options) (lin : String)
    (nlin : Nat) (question : Question) (questions : List Question) :
    Except ScanError (ScanState × Question × List Question) :=
  if is_an_answer lin then
    if question.has_proper_description then
      match process_current_answer filename opts lin nlin question with
      | .error e => .error e
      | .ok q2 => .ok (.answer, q2, questions)
    else .error (.scanError filename nlin "question description unset")
  else if is_a_question lin then
    if question.has_proper_description then
      .ok (.title, question.reset, questions ++ [question.clone])
    else .error (.scanError filename nlin "question description unset")
  else if is_a_description lin then
    .error (.scanError filename nlin "too many description marks")
  else if !(is_a_comment lin) then
    .ok (.description, question.add_description lin, questions)
  else .ok (.description, question, questions)

/-- `Quiz._scan_answer`. -/
def scan_answer (filename : String) (opts : Options) (lin : String)
    (nlin : Nat) (question : Question) (questions : List Question) :
    Except ScanError (ScanState × Question × List Question) :=
  if is_a_question lin then
    match question.has_finished_current_answer with
    | none => .error .attributeError
    | some true => .ok (.title, question.reset, questions ++ [question.clone])
    | some false => .error (.scanError filename nlin "unfinished answer")
  else if is_an_answer lin then
    if question.get_nr_answers ≥ opts.maxanswers then
      .error (.scanError filename nlin "exceded max nr of answers per question")
    else
      match question.has_finished_current_answer with
      | none => .error .attributeError
      | some true =>
        match process_current_answer filename opts lin nlin question with
        | .error e => .error e
        | .ok q2 => .ok (.answer, q2, questions)
      | some false => .error (.scanError filename nlin "unfinished answer")
  else if is_a_description lin then
    .error (.scanError filename nlin "unexpected description mark")
  else if !(is_a_comment lin) then
    match question.current_answer_add_description lin with
    | none => .error .attributeError
    | some q2 => .ok (.answer, q2, questions)
  else .ok (.answer, question, questions)

/-- The line loop of `Quiz._scan_quiz_file`: `nlin` counts the lines
already consumed, so the line at the head of the list is the 1-based
line `nlin + 1`; at end of input the in-progress question is appended
when complete, otherwise the scan fails at the final line count. -/
def scan_lines (filename : String) (opts : Options) :
    List String → Nat → ScanState → Question → List Question →
    Except ScanError (List Question)
  | [], nlin, _, question, questions =>
    match question.is_complete with
    | none => .error .attributeError
    | some true => .ok (questions ++ [question])
    | some false =>
      .error (.scanError filename nlin
        "end of file reached leaving unfinished question")
  | lin :: rest, nlin, state, question, questions =>
    if is_a_comment lin then
      scan_lines filename opts rest (nlin + 1) state question questions
    else
      match state with
      | .question =>
        match scan_question filename lin (nlin + 1) question with
        | .error e => .error e
        | .ok (st2, q2) =>
          scan_lines filename opts rest (nlin + 1) st2 q2 questions
      | .title =>
        match scan_title filename lin (nlin + 1) question with
        | .error e => .error e
        | .ok (st2, q2) =>
          scan_lines filename opts rest (nlin + 1) st2 q2 questions
      | .description =>
        match scan_description filename opts lin (nlin + 1) question questions with
        | .error e => .error e
        | .ok (st2, q2, qs2) =>
          scan_lines filename opts rest (nlin + 1) st2 q2 qs2
      | .answer =>
        match scan_answer filename opts lin (nlin + 1) question questions with
        | .error e => .error e
        | .ok (st2, q2, qs2) =>
          scan_lines filename opts rest (nlin + 1) st2 q2 qs2

/-- `Quiz._scan_quiz_file` on the list of physical lines of the file
(each line keeps its terminator, as in Python file iteration). -/
def scan_quiz_file (filename : String) (opts : Options)
    (lines : List String) : Except ScanError (List Question) :=
  scan_lines filename opts lines 0 .question Question.initial []

/-- `Question._postprocess_answers`: strips every answer of the question. -/
def Question.postprocess_answers (q : Question) : Question :=
  { q with answers := q.answers.map Answer.postprocess,
           final_answers := q.final_answers.map Answer.postprocess }

/-- The two program points that draw from the pseudo-random generator
(`random.shuffle` on an answer list or on a question list). -/
inductive Site where
  | answers
  | questions
deriving DecidableEq

/-- `Question._shuffle_answers`.  The global `random` generator is made
explicit: `k` counts the draws made so far in the run, and `fA k` is the
permutation the generator's `k`-th draw applies.  The returned trace
records the draw sites in order. -/
def Question.shuffle_answers (opts : Options)
    (fA : Nat → List Answer → List Answer) (q : Question) (k : Nat) :
    Question × Nat × List Site :=
  if opts.shuffleanswers then
    ({ q with answers := fA k q.answers }, k + 1, [Site.answers])
  else (q, k, [])

/-- `Question.postprocess`: strip title and description, compute weights,
shuffle answers, then strip the answers. -/
def Question.postprocess (opts : Options)
    (fA : Nat → List Answer → List Answer) (q : Question) (k : Nat) :
    Question × Nat × List Site :=
  let q1 := { q with title := pystrip q.title, descr := pystrip q.descr }
  let q2 := q1.compute_weights
  let r := q2.shuffle_answers opts fA k
  (r.1.postprocess_answers, r.2.1, r.2.2)

/-- Class `Quiz` of `shufflequiz.py` (the scanner part is modelled by
`scan_quiz_file`; this structure holds the scanned result). -/
structure Quiz where
  filename : String
  questions : List Question
deriving DecidableEq

/-- `Quiz._shuffle_questions`, with the generator explicit as in
`Question.shuffle_answers`. -/
def Quiz.shuffle_questions (opts : Options)
    (fQ : Nat → List Question → List Question) (qz : Quiz) (k : Nat) :
    Quiz × Nat × List Site :=
  if opts.shufflequestions then
    ({ qz with questions := fQ k qz.questions }, k + 1, [Site.questions])
  else (qz, k, [])

/-- The loop `for q in self.questions: q.postprocess()` of
`Quiz.postprocess`, threading the generator. -/
def postprocess_questions (opts : Options)
    (fA : Nat → List Answer → List Answer) :
    List Question → Nat → List Question × Nat × List Site
  | [], k => ([], k, [])
  | q :: rest, k =>
    let r1 := Question.postprocess opts fA q k
    let r2 := postprocess_questions opts fA rest r1.2.1
    (r1.1 :: r2.1, r2.2.1, r1.2.2 ++ r2.2.2)

/-- `Quiz.postprocess`: shuffle the questions, then postprocess each
question in order. -/
def Quiz.postprocess (opts : Options)
    (fA : Nat → List Answer → List Answer)
    (fQ : Nat → List Question → List Question) (qz : Quiz) (k : Nat) :
    Quiz × Nat × List Site :=
  let r1 := qz.shuffle_questions opts fQ k
  let r2 := postprocess_questions opts fA r1.1.questions r1.2.1
  ({ r1.1 with questions := r2.1 }, r2.2.1, r1.2.2 ++ r2.2.2)

/-- The loop `for quiz in self.quizes: quiz.postprocess()` of
`QuizSet._postprocess`, threading the generator. -/
def postprocess_quizes (opts : Options)
    (fA : Nat → List Answer → List Answer)
    (fQ : Nat → List Question → List Question) :
    List Quiz → Nat → List Quiz × Nat × List Site
  | [], k => ([], k, [])
  | qz :: rest, k =>
    let r1 := Quiz.postprocess opts fA fQ qz k
    let r2 := postprocess_quizes opts fA fQ rest r1.2.1
    (r1.1 :: r2.1, r2.2.1, r1.2.2 ++ r2.2.2)

/-- `QuizSet._postprocess`: when file shuffling is on, first pool every
question of every quiz into one synthetic quiz named `allfiles`, then
postprocess each quiz. -/
def QuizSet_postprocess (opts : Options)
    (fA : Nat → List Answer → List Answer)
    (fQ : Nat → List Question → List Question) (quizes : List Quiz)
    (k : Nat) : List Quiz × Nat × List Site :=
  let quizes1 :=
    if opts.shufflefiles then
      [{ filename := "allfiles",
         questions := (quizes.map Quiz.questions).flatten : Quiz }]
    else quizes
  postprocess_quizes opts fA fQ quizes1 k

end SQ

/-- Round an exact rational to the nearest integer, ties to even — the
rounding CPython applies to the decimal digits when rendering a float
with `"%0.3f"`. -/
def roundHalfToEven (x : ℚ) : Int :=
  let f : Int := Int.floor x
  let r : ℚ := x - f
  if r < 1/2 then f
  else if 1/2 < r then f + 1
  else if f % 2 = 0 then f else f + 1

/-- Python `"%0.3f" % x`, modelled on exact rationals: the sign, the
integer part, a dot, and the three zero-padded fractional digits. -/
def format3 (x : ℚ) : String :=
  let n : Int := roundHalfToEven (x * 1000)
  let sgn : String := if n < 0 then "-" else ""
  let ip : Nat := n.natAbs / 1000
  let fp : Nat := n.natAbs % 1000
  let fps : String :=
    if fp < 10 then "00" ++ toString fp
    else if fp < 100 then "0" ++ toString fp
    else toString fp
  sgn ++ toString ip ++ "." ++ fps

namespace MQ

/-- Class `Answer` of `quiz2moodlexml.py` (no `weight` attribute). -/
structure Answer where
  is_correct : Bool
  is_final : Bool
  text : String
deriving DecidableEq, Inhabited

/-- `Answer.add_description` of `quiz2moodlexml.py`. -/
def Answer.add_description (a : Answer) (text : String) : Answer :=
  { a with text := a.text ++ text }

/-- `Answer.is_complete` of `quiz2moodlexml.py`. -/
def Answer.is_complete (a : Answer) : Bool :=
  a.text != ""

/-- The claim-side normalisation that forgets an answer's finality flag. -/
def Answer.forget_final (a : Answer) : Answer :=
  { a with is_final := false }

/-- `_MAP_GIFT_WEIGHTS` of `quiz2moodlexml.py`: the canonical Moodle
fraction strings, keyed by the signed class size. -/
def MAP_GIFT_WEIGHTS (n : Int) : Option String :=
  if n = 1 then some "100"
  else if n = 2 then some "50"
  else if n = 3 then some "33.33333"
  else if n = 4 then some "25"
  else if n = 5 then some "20"
  else if n = 6 then some "16.66667"
  else if n = 7 then some "14.28571"
  else if n = 8 then some "12.5"
  else if n = 9 then some "11.11111"
  else if n = 10 then some "10"
  else if n = -10 then some "-10"
  else if n = -9 then some "-11.11111"
  else if n = -8 then some "-12.5"
  else if n = -7 then some "-14.28571"
  else if n = -6 then some "-16.66667"
  else if n = -5 then some "-20"
  else if n = -4 then some "-25"
  else if n = -3 then some "-33.33333"
  else if n = -2 then some "-50"
  else if n = -1 then some "-100"
  else none

/-- Class `Question` of `quiz2moodlexml.py`: unlike `SQ.Question` it keeps
per-class counters and its `add_answer` never uses `final_answers`. -/
structure Question where
  title : String
  descr : String
  answers : List Answer
  final_answers : List Answer
  current_answer : Option Bool
  nr_correct_answers : Nat
  nr_incorrect_answers : Nat
deriving DecidableEq

/-- `Question.add_answer` of `quiz2moodlexml.py`: every answer — final or
not — is appended to the single `answers` list. -/
def Question.add_answer (q : Question) (answer : Answer) : Question :=
  { q with
    answers := q.answers ++ [answer],
    current_answer := some false,
    nr_correct_answers :=
      if answer.is_correct then q.nr_correct_answers + 1
      else q.nr_correct_answers,
    nr_incorrect_answers :=
      if answer.is_correct then q.nr_incorrect_answers
      else q.nr_incorrect_answers + 1 }

/-- `Question._compute_answer_class`: the class size, negative for the
incorrect class. -/
def Question.compute_answer_class (q : Question) (is_correct : Bool) : Int :=
  if is_correct then (q.nr_correct_answers : Int)
  else -(q.nr_incorrect_answers : Int)

/-- `Question._compute_answer_weight_fulldecimal`: `1.0 / class size`
(float division modelled exactly in ℚ). -/
def Question.compute_answer_weight_fulldecimal (q : Question)
    (is_correct : Bool) : ℚ :=
  1 / (q.compute_answer_class is_correct : ℚ)

/-- `Question._compute_answer_weight_for_gift`: table lookup on the signed
class size, with `"%0.3f" % (1.0 / class)` as the fallback. -/
def Question.compute_answer_weight_for_gift (q : Question)
    (is_correct : Bool) : String :=
  (MAP_GIFT_WEIGHTS (q.compute_answer_class is_correct)).getD
    (format3 (q.compute_answer_weight_fulldecimal is_correct))

/-- `_XML_ANSWER_TEMPLATE % (weight, descr)` of `quiz2moodlexml.py`. -/
def XML_ANSWER_TEMPLATE (weight descr : String) : String :=
  "\n        <answer fraction=\"" ++ weight ++
    "\" format=\"markdown\">\n            <text><![CDATA[\n                " ++
    descr ++ "\n                ]]></text>\n        </answer>\n"

/-- `_XML_ANSWER_SEPARATION` of `quiz2moodlexml.py`. -/
def XML_ANSWER_SEPARATION : String := "\n"

/-- `Question._xml_composeanswers`: one answer block per element of
`answers`, in list order. -/
def Question.xml_composeanswers (q : Question) : String :=
  String.intercalate XML_ANSWER_SEPARATION
    (q.answers.map (fun answer =>
      XML_ANSWER_TEMPLATE (q.compute_answer_weight_for_gift answer.is_correct)
        answer.text))

/-- `_XML_QUESTION_TEMPLATE % (title, descr, answers)` of
`quiz2moodlexml.py`. -/
def XML_QUESTION_TEMPLATE (title descr answers : String) : String :=
  "\n    <question type=\"multichoice\">\n        <name>\n            <text>" ++
    title ++
    "</text>\n        </name>\n        <questiontext format=\"markdown\">\n            <text>\n                <![CDATA[" ++
    descr ++
    "]]>\n            </text>\n        </questiontext>\n        <single>false</single>\n        <shuffleanswers>true</shuffleanswers>\n" ++
    answers ++ "\n    </question>\n"

/-- `Question.toXML`. -/
def Question.toXML (q : Question) : String :=
  XML_QUESTION_TEMPLATE q.title q.descr q.xml_composeanswers

end MQ

/-- The `argparse` defaults of `shufflequiz.py`: `placefinals=True`,
`maxanswers=10`, all shuffle flags off. -/
def default_options : SQ.Options :=
  { placefinals := true, maxanswers := 10, shuffleanswers := false,
    shufflequestions := false, shufflefiles := false }

/-- The property every question committed to a quiz is claimed to have:
non-empty title, non-empty description, and only non-empty answer texts. -/
def committed_ok (q : SQ.Question) : Bool :=
  (q.title != "") && (q.descr != "") &&
    ((q.answers ++ q.final_answers).all fun a => a.text != "")

/-- An empty `quiz2moodlexml` question under construction. -/
def mq_empty : MQ.Question :=
  { title := "t", descr := "d", answers := [], final_answers := [],
    current_answer := none, nr_correct_answers := 0,
    nr_incorrect_answers := 0 }

/-- A `quiz2moodlexml` question holding eleven correct answers and one
incorrect answer, built through `add_answer` as the scanner would. -/
def mq_eleven : MQ.Question :=
  (List.replicate 11
      ({ is_correct := true, is_final := false, text := "a" } : MQ.Answer) ++
    [({ is_correct := false, is_final := false, text := "b" } : MQ.Answer)]).foldl
    MQ.Question.add_answer mq_empty

/-- Claim C1.  The claim says a file ending right after a question with
only a title and a description (no answers) succeeds and includes that
question, and that every failure is a scan error carrying file name and
line count.  The code instead evaluates
`self.current_answer.is_complete()` with `current_answer = None` at end
of input, so such a file crashes with an uncaught `AttributeError` — the
very input the code's own header comment declares well-formed ("a
question can be wellformed with just a title and a description"). -/
theorem c1_title_description_only_eof_crashes :
    SQ.scan_quiz_file "f.quiz" default_options
        [".. pregunta:\n", "T\n", ".. enunciat:\n", "D\n"] =
      .error .attributeError := by decide

lemma floor_1000_div_11 : Int.floor ((1000 : ℚ) / 11) = 90 := by
  rw [Int.floor_eq_iff]
  norm_num

lemma round_1000_div_11 : roundHalfToEven ((1 : ℚ) / 11 * 1000) = 91 := by
  have hx : ((1 : ℚ) / 11 * 1000) = 1000 / 11 := by norm_num
  simp only [roundHalfToEven, hx, floor_1000_div_11]
  norm_num

lemma floor_100000_div_11 : Int.floor ((100000 : ℚ) / 11) = 9090 := by
  rw [Int.floor_eq_iff]
  norm_num

lemma round_100000_div_11 : roundHalfToEven ((100 : ℚ) / 11 * 1000) = 9091 := by
  have hx : ((100 : ℚ) / 11 * 1000) = 100000 / 11 := by norm_num
  simp only [roundHalfToEven, hx, floor_100000_div_11]
  norm_num

/-- Claim C2.  For class sizes 1..10 the code does return the canonical
table strings, but for a class of size 11 the fallback formats
`1.0/11` — not `100.0/11` as the claim states — to three decimals: the
code emits the Moodle fraction `"0.091"` where the claim requires
`"9.091"`.  The fallback is off from the code's own table convention
(`100/N` percentages) by a factor of 100. -/
theorem c2_gift_fallback_is_wrong_scale :
    mq_eleven.nr_correct_answers = 11 ∧
    MQ.Question.compute_answer_weight_for_gift mq_eleven true = "0.091" ∧
    format3 ((100 : ℚ) / 11) = "9.091" ∧
    ("0.091" : String) ≠ "9.091" := by
  refine ⟨by decide, ?_, ?_, by decide⟩
  · have hclass : mq_eleven.compute_answer_class true = 11 := by decide
    have hfd : mq_eleven.compute_answer_weight_fulldecimal true = (1 : ℚ) / 11 := by
      simp only [MQ.Question.compute_answer_weight_fulldecimal, hclass]
      norm_num
    simp only [MQ.Question.compute_answer_weight_for_gift, hclass, hfd]
    have hmap : MQ.MAP_GIFT_WEIGHTS 11 = none := by decide
    rw [hmap]
    simp only [Option.getD]
    simp only [format3, round_1000_div_11]
    decide
  · simp only [format3, round_100000_div_11]
    decide

/-- Claim C10.  In the XML converter `add_answer` appends every answer —
final or not — to the single `answers` list (never to `final_answers`),
and the rendered XML is invariant under wiping all finality flags, so
`is_final` has no effect on the output and final answers are not pinned
after regular ones. -/
theorem c10_is_final_has_no_effect_in_xml :
    (∀ (q : MQ.Question) (a : MQ.Answer),
        (q.add_answer a).answers = q.answers ++ [a] ∧
        (q.add_answer a).final_answers = q.final_answers) ∧
    (∀ q : MQ.Question,
        MQ.Question.toXML
            { q with answers := q.answers.map MQ.Answer.forget_final } =
          MQ.Question.toXML q) := by
  refine ⟨fun q a => ⟨rfl, rfl⟩, fun q => ?_⟩
  simp only [MQ.Question.toXML, MQ.Question.xml_composeanswers, List.map_map]
  rfl

lemma length_filter_not {α : Type} (p : α → Bool) (l : List α) :
    (l.filter fun a => !(p a)).length = l.length - (l.filter p).length := by
  induction l with
  | nil => rfl
  | cons a t ih =>
    have hle := List.length_filter_le p t
    by_cases h : p a = true
    · simp [List.filter_cons, h, ih]
    · simp only [List.filter_cons, h, Bool.not_eq_true] at *
      simp [h, ih]
      omega

lemma filter_map_comm {α β : Type} (f : α → β) (p : β → Bool) (l : List α) :
    (l.map f).filter p = (l.filter fun a => p (f a)).map f := by
  induction l with
  | nil => rfl
  | cons a t ih =>
    by_cases h : p (f a) = true
    · simp [List.filter_cons, h, ih]
    · simp only [List.map_cons, List.filter_cons, h, Bool.false_eq_true,
        if_false, if_neg] at *
      simp [h, ih]

lemma sum_map_const_of_mem {α : Type} (l : List α) (g : α → ℚ) (c : ℚ)
    (h : ∀ x ∈ l, g x = c) : (l.map g).sum = l.length * c := by
  induction l with
  | nil => simp
  | cons a t ih =>
    simp only [List.map_cons, List.sum_cons, h a (by simp),
      ih (fun x hx => h x (by simp [hx])), List.length_cons]
    push_cast
    ring

lemma if_pos_one_div (n : Nat) : (if n > 0 then (1 : ℚ) / n else 0) = 1 / n := by
  rcases Nat.eq_zero_or_pos n with h | h
  · subst h; simp
  · rw [if_pos h]

lemma if_pos_neg_div (n : Nat) : (if n > 0 then (-1 : ℚ) / n else 0) = -1 / n := by
  rcases Nat.eq_zero_or_pos n with h | h
  · subst h; simp
  · rw [if_pos h]

lemma map_weight_assign (l : List SQ.Answer) (cw iw : ℚ) :
    ((l.map fun a =>
        if a.is_correct then a.set_weight cw else a.set_weight iw).map
      SQ.Answer.weight) =
      l.map fun a => if a.is_correct then cw else iw := by
  induction l with
  | nil => rfl
  | cons a t ih =>
    simp only [List.map_cons, ih]
    cases h : a.is_correct <;> simp [h, SQ.Answer.set_weight]

lemma filter_assign (l : List SQ.Answer) (cw iw : ℚ) (p : SQ.Answer → Bool)
    (hp : ∀ a : SQ.Answer,
      p (if a.is_correct then a.set_weight cw else a.set_weight iw) = p a) :
    ((l.map fun a =>
        if a.is_correct then a.set_weight cw else a.set_weight iw).filter p) =
      (l.filter p).map fun a =>
        if a.is_correct then a.set_weight cw else a.set_weight iw := by
  rw [filter_map_comm]
  congr 1
  apply List.filter_congr
  intro a _
  rw [hp]

/-- The number `Nc` of correct answers of a question (regular + final). -/
def correct_count (q : SQ.Question) : Nat :=
  ((q.all_answers).filter fun a => a.is_correct).length

/-- The number `Ni` of incorrect answers of a question (regular + final). -/
def incorrect_count (q : SQ.Question) : Nat :=
  ((q.all_answers).filter fun a => !a.is_correct).length

/-- Claim C4.  After `_compute_weights` every correct answer's weight is
`1/Nc` and every incorrect answer's weight is `-1/Ni` (`1/0` and `-1/0`
denote the code's `0` for an empty class, matching ℚ's convention), and
the weights sum to `1` over the correct answers and to `-1` over the
incorrect ones, `0` for an empty class. -/
theorem c4_linear_fraction_weights (q : SQ.Question) :
    ((q.compute_weights.all_answers).map SQ.Answer.weight =
       (q.all_answers).map fun a =>
         if a.is_correct then (1 : ℚ) / correct_count q
         else -1 / incorrect_count q) ∧
    (((q.compute_weights.all_answers.filter fun a => a.is_correct).map
        SQ.Answer.weight).sum =
      if correct_count q = 0 then 0 else 1) ∧
    (((q.compute_weights.all_answers.filter fun a => !a.is_correct).map
        SQ.Answer.weight).sum =
      if incorrect_count q = 0 then 0 else -1) := by
  have hnc : correct_count q =
      ((q.answers ++ q.final_answers).filter fun a => a.is_correct).length := rfl
  have hni' : ((q.answers ++ q.final_answers).filter
        fun a => !a.is_correct).length =
      (q.answers ++ q.final_answers).length -
        ((q.answers ++ q.final_answers).filter fun a => a.is_correct).length :=
    length_filter_not _ _
  have hni : incorrect_count q =
      (q.answers ++ q.final_answers).length -
        ((q.answers ++ q.final_answers).filter fun a => a.is_correct).length :=
    hni'
  rw [hnc, hni]
  simp only [SQ.Question.compute_weights, SQ.Question.all_answers,
    if_pos_one_div, if_pos_neg_div, ← List.map_append]
  refine ⟨?_, ?_, ?_⟩
  · rw [map_weight_assign]
  · rw [filter_assign _ _ _ _ (fun a => by cases h : a.is_correct <;>
      simp [h, SQ.Answer.set_weight])]
    rw [List.map_map]
    rw [sum_map_const_of_mem _ _
      ((1 : ℚ) / ((q.answers ++ q.final_answers).filter
          fun a => a.is_correct).length)
      (fun x hx => by
        have hc := (List.mem_filter.mp hx).2
        simp only [Function.comp_apply, hc, if_true]
        rfl)]
    rcases Nat.eq_zero_or_pos
        ((q.answers ++ q.final_answers).filter fun a => a.is_correct).length
      with h | h
    · rw [h]
      norm_num
    · rw [if_neg (Nat.pos_iff_ne_zero.mp h)]
      generalize (((q.answers ++ q.final_answers).filter
          fun a => a.is_correct).length) = n at h
      have hne : ((n : ℚ)) ≠ 0 :=
        Nat.cast_ne_zero.mpr (Nat.pos_iff_ne_zero.mp h)
      rw [mul_one_div, div_self hne]
  · rw [filter_assign _ _ _ _ (fun a => by cases h : a.is_correct <;>
      simp [h, SQ.Answer.set_weight])]
    rw [List.map_map]
    rw [sum_map_const_of_mem _ _
      ((-1 : ℚ) / (((q.answers ++ q.final_answers).length -
          ((q.answers ++ q.final_answers).filter
            fun a => a.is_correct).length : Nat) : ℚ))
      (fun x hx => by
        have hc := (List.mem_filter.mp hx).2
        rw [Bool.not_eq_true'] at hc
        simp only [Function.comp_apply, hc, Bool.false_eq_true, if_false]
        rfl)]
    rw [hni']
    rcases Nat.eq_zero_or_pos
        ((q.answers ++ q.final_answers).length -
          ((q.answers ++ q.final_answers).filter
            fun a => a.is_correct).length)
      with h | h
    · rw [h]
      norm_num
    · rw [if_neg (Nat.pos_iff_ne_zero.mp h)]
      generalize ((q.answers ++ q.final_answers).length -
          ((q.answers ++ q.final_answers).filter
            fun a => a.is_correct).length) = n at h
      have hne : ((n : ℚ)) ≠ 0 :=
        Nat.cast_ne_zero.mpr (Nat.pos_iff_ne_zero.mp h)
      rw [show ((n : ℚ)) * (-1 / (n : ℚ)) = -((n : ℚ) / (n : ℚ)) from by ring,
        div_self hne]

/-- The weight-assignment function of `_compute_weights`, named. -/
def assignW (cw iw : ℚ) (a : SQ.Answer) : SQ.Answer :=
  if a.is_correct then a.set_weight cw else a.set_weight iw

/-- The `nr_incorrect_answers` computed by `_compute_weights`. -/
def ni_of (q : SQ.Question) : Nat :=
  q.all_answers.length - correct_count q

/-- The `correct_weight` computed by `_compute_weights`. -/
def cw_of (q : SQ.Question) : ℚ :=
  if correct_count q > 0 then 1 / correct_count q else 0

/-- The `incorrect_weight` computed by `_compute_weights`. -/
def iw_of (q : SQ.Question) : ℚ :=
  if ni_of q > 0 then -1 / ni_of q else 0

lemma compute_weights_eq_map (q : SQ.Question) :
    q.compute_weights =
      { q with answers := q.answers.map (assignW (cw_of q) (iw_of q)),
               final_answers :=
                 q.final_answers.map (assignW (cw_of q) (iw_of q)) } := rfl

lemma assignW_is_correct (cw iw : ℚ) (a : SQ.Answer) :
    (assignW cw iw a).is_correct = a.is_correct := by
  cases h : a.is_correct <;> simp [assignW, h, SQ.Answer.set_weight]

lemma assignW_idem (cw iw : ℚ) (a : SQ.Answer) :
    assignW cw iw (assignW cw iw a) = assignW cw iw a := by
  cases h : a.is_correct <;> simp [assignW, h, SQ.Answer.set_weight]

lemma length_filter_correct_of_flags (l1 l2 : List SQ.Answer)
    (h : l1.map SQ.Answer.is_correct = l2.map SQ.Answer.is_correct) :
    (l1.filter fun a => a.is_correct).length =
      (l2.filter fun a => a.is_correct).length := by
  have key : ∀ l : List SQ.Answer, (l.filter fun a => a.is_correct).length =
      ((l.map SQ.Answer.is_correct).filter id).length := by
    intro l
    induction l with
    | nil => rfl
    | cons a t ih => cases hh : a.is_correct <;> simp [List.filter_cons, hh, ih]
  rw [key, key, h]

lemma map_weight_assignW (l : List SQ.Answer) (cw iw : ℚ) :
    ((l.map (assignW cw iw)).map SQ.Answer.weight) =
      (l.map SQ.Answer.is_correct).map fun b => if b then cw else iw := by
  induction l with
  | nil => rfl
  | cons a t ih =>
    simp only [List.map_cons, ih]
    cases h : a.is_correct <;> simp [assignW, h, SQ.Answer.set_weight]

lemma weights_of_update (q : SQ.Question) (A B : List SQ.Answer)
    (hA : A.map SQ.Answer.is_correct = q.answers.map SQ.Answer.is_correct)
    (hB : B.map SQ.Answer.is_correct =
      q.final_answers.map SQ.Answer.is_correct) :
    cw_of { q with answers := A, final_answers := B } = cw_of q ∧
    iw_of { q with answers := A, final_answers := B } = iw_of q := by
  have hcc : correct_count { q with answers := A, final_answers := B } =
      correct_count q := by
    unfold correct_count SQ.Question.all_answers
    rw [List.filter_append, List.filter_append, List.length_append,
      List.length_append, length_filter_correct_of_flags _ _ hA,
      length_filter_correct_of_flags _ _ hB]
  have hlenA : A.length = q.answers.length := by
    have h1 := congrArg List.length hA
    simpa using h1
  have hlenB : B.length = q.final_answers.length := by
    have h1 := congrArg List.length hB
    simpa using h1
  have hni : ni_of { q with answers := A, final_answers := B } = ni_of q := by
    unfold ni_of SQ.Question.all_answers
    rw [List.length_append, List.length_append, hlenA, hlenB, hcc]
  exact ⟨by unfold cw_of; rw [hcc], by unfold iw_of; rw [hni]⟩

/-- Claim C8.  Weighting is a pure function of the correctness flags:
recomputing the weights of an already weighted question changes nothing
(idempotence), two questions with pointwise-equal correctness flags get
equal weight lists, and the XML converter's per-answer weight string
depends only on the class counters and the answer's own flag. -/
theorem c8_weighting_pure_and_idempotent :
    (∀ q : SQ.Question,
        (q.compute_weights).compute_weights = q.compute_weights) ∧
    (∀ q1 q2 : SQ.Question,
        q1.answers.map SQ.Answer.is_correct =
          q2.answers.map SQ.Answer.is_correct →
        q1.final_answers.map SQ.Answer.is_correct =
          q2.final_answers.map SQ.Answer.is_correct →
        ((q1.compute_weights).answers.map SQ.Answer.weight =
            (q2.compute_weights).answers.map SQ.Answer.weight ∧
          (q1.compute_weights).final_answers.map SQ.Answer.weight =
            (q2.compute_weights).final_answers.map SQ.Answer.weight)) ∧
    (∀ (q1 q2 : MQ.Question) (b : Bool),
        q1.nr_correct_answers = q2.nr_correct_answers →
        q1.nr_incorrect_answers = q2.nr_incorrect_answers →
        q1.compute_answer_weight_for_gift b =
          q2.compute_answer_weight_for_gift b) := by
  refine ⟨?_, ?_, ?_⟩
  · intro q
    have hfl : ∀ l : List SQ.Answer,
        (l.map (assignW (cw_of q) (iw_of q))).map SQ.Answer.is_correct =
          l.map SQ.Answer.is_correct := fun l => by
      rw [List.map_map]
      exact List.map_congr_left fun a _ => assignW_is_correct _ _ a
    obtain ⟨hcw, hiw⟩ :=
      weights_of_update q (q.answers.map (assignW (cw_of q) (iw_of q)))
        (q.final_answers.map (assignW (cw_of q) (iw_of q))) (hfl _) (hfl _)
    rw [compute_weights_eq_map q, compute_weights_eq_map, hcw, hiw]
    congr 1
    · rw [List.map_map]
      exact List.map_congr_left fun a _ => assignW_idem _ _ a
    · rw [List.map_map]
      exact List.map_congr_left fun a _ => assignW_idem _ _ a
  · intro q1 q2 h1 h2
    have hap : q1.all_answers.map SQ.Answer.is_correct =
        q2.all_answers.map SQ.Answer.is_correct := by
      unfold SQ.Question.all_answers
      rw [List.map_append, List.map_append, h1, h2]
    have hcc : correct_count q1 = correct_count q2 :=
      length_filter_correct_of_flags _ _ hap
    have hlen : q1.all_answers.length = q2.all_answers.length := by
      have h3 := congrArg List.length hap
      simpa using h3
    have hcw : cw_of q1 = cw_of q2 := by unfold cw_of; rw [hcc]
    have hiw : iw_of q1 = iw_of q2 := by
      unfold iw_of ni_of
      rw [hcc, hlen]
    rw [compute_weights_eq_map q1, compute_weights_eq_map q2]
    constructor
    · rw [map_weight_assignW, map_weight_assignW, h1, hcw, hiw]
    · rw [map_weight_assignW, map_weight_assignW, h2, hcw, hiw]
  · intro q1 q2 b h1 h2
    unfold MQ.Question.compute_answer_weight_for_gift
      MQ.Question.compute_answer_weight_fulldecimal
      MQ.Question.compute_answer_class
    rw [h1, h2]

/-- Claim C5.  With `placefinals` on, `addAnswer` appends a final answer
at the end of the pinned list (preserving arrival order) and leaves the
regular list alone, and `_shuffle_answers` touches only the regular
list: for any permutation the generator draw may apply, the pinned list
is unchanged, the regular list is a permutation of the original, the
rendering order is the shuffled regular answers followed by the original
final answers, and the multiset of all answer texts is preserved. -/
theorem c5_shuffle_permutes_only_regular_answers :
    (∀ (opts : SQ.Options) (q : SQ.Question) (a : SQ.Answer),
        a.is_final = true → opts.placefinals = true →
        (q.addAnswer opts a).final_answers = q.final_answers ++ [a] ∧
        (q.addAnswer opts a).answers = q.answers) ∧
    (∀ (opts : SQ.Options) (fA : Nat → List SQ.Answer → List SQ.Answer)
        (k : Nat) (q : SQ.Question),
        (fA k q.answers).Perm q.answers →
        ((SQ.Question.shuffle_answers opts fA q k).1.final_answers =
            q.final_answers ∧
          (SQ.Question.shuffle_answers opts fA q k).1.answers.Perm q.answers ∧
          (SQ.Question.shuffle_answers opts fA q k).1.all_answers =
            (SQ.Question.shuffle_answers opts fA q k).1.answers ++
              q.final_answers ∧
          (((SQ.Question.shuffle_answers opts fA q k).1.all_answers.map
              SQ.Answer.text).Perm
            ((q.all_answers).map SQ.Answer.text)))) := by
  constructor
  · intro opts q a ha hp
    constructor <;> simp [SQ.Question.addAnswer, ha, hp]
  · intro opts fA k q hperm
    have hfa : (SQ.Question.shuffle_answers opts fA q k).1.final_answers =
        q.final_answers := by
      unfold SQ.Question.shuffle_answers
      split <;> rfl
    have hpa : (SQ.Question.shuffle_answers opts fA q k).1.answers.Perm
        q.answers := by
      unfold SQ.Question.shuffle_answers
      split
      · exact hperm
      · exact List.Perm.refl _
    have hall : (SQ.Question.shuffle_answers opts fA q k).1.all_answers =
        (SQ.Question.shuffle_answers opts fA q k).1.answers ++
          q.final_answers := by
      unfold SQ.Question.all_answers
      rw [hfa]
    refine ⟨hfa, hpa, hall, ?_⟩
    rw [hall]
    unfold SQ.Question.all_answers
    simp only [List.map_append]
    exact (hpa.map SQ.Answer.text).append_right _

/-- The draw order stated by the claim: no question-shuffle draw may
precede an answer-shuffle draw. -/
def answers_before_questions (t : List SQ.Site) : Prop :=
  ∀ i < t.length, ∀ j < t.length, i < j →
    t.getD i SQ.Site.answers = SQ.Site.questions →
    t.getD j SQ.Site.questions ≠ SQ.Site.answers

/-- A configuration with answer and question shuffling enabled. -/
def c6_options : SQ.Options :=
  { placefinals := true, maxanswers := 10, shuffleanswers := true,
    shufflequestions := true, shufflefiles := false }

/-- A scanned question holding one correct answer. -/
def one_answer_question : SQ.Question :=
  { title := "t", descr := "d",
    answers := [{ is_correct := true, is_final := false, text := "a",
                  weight := 0 }],
    final_answers := [], current_answer := some false }

/-- A scanned quiz with two questions. -/
def two_question_quiz : SQ.Quiz :=
  { filename := "f.quiz", questions := [one_answer_question, one_answer_question] }

/-- The generator-draw trace of postprocessing `two_question_quiz` under
`c6_options` (the identity standing in for the drawn permutations). -/
def c6_trace : List SQ.Site :=
  (SQ.QuizSet_postprocess c6_options (fun _ l => l) (fun _ l => l)
    [two_question_quiz] 0).2.2

lemma question_postprocess_trace (opts : SQ.Options)
    (fA : Nat → List SQ.Answer → List SQ.Answer) (q : SQ.Question) (k : Nat) :
    (SQ.Question.postprocess opts fA q k).2.2 =
      (if opts.shuffleanswers then [SQ.Site.answers] else []) ∧
    (SQ.Question.postprocess opts fA q k).2.1 =
      k + (SQ.Question.postprocess opts fA q k).2.2.length := by
  by_cases h : opts.shuffleanswers = true <;>
    simp [SQ.Question.postprocess, SQ.Question.shuffle_answers, h]

lemma postprocess_questions_trace (opts : SQ.Options)
    (fA : Nat → List SQ.Answer → List SQ.Answer) :
    ∀ (qs : List SQ.Question) (k : Nat),
      (SQ.postprocess_questions opts fA qs k).2.2 =
        (if opts.shuffleanswers then
          List.replicate qs.length SQ.Site.answers
        else []) ∧
      (SQ.postprocess_questions opts fA qs k).2.1 =
        k + (SQ.postprocess_questions opts fA qs k).2.2.length := by
  intro qs
  induction qs with
  | nil =>
    intro k
    constructor <;> simp [SQ.postprocess_questions]
  | cons q rest ih =>
    intro k
    obtain ⟨h1, h2⟩ := question_postprocess_trace opts fA q k
    obtain ⟨h3, h4⟩ := ih (SQ.Question.postprocess opts fA q k).2.1
    constructor
    · simp only [SQ.postprocess_questions, h1, h3, List.length_cons]
      by_cases h : opts.shuffleanswers = true <;>
        simp [h, List.replicate_succ]
    · have e1 : (SQ.postprocess_questions opts fA (q :: rest) k).2.1 =
          (SQ.postprocess_questions opts fA rest
            (SQ.Question.postprocess opts fA q k).2.1).2.1 := rfl
      have e2 : (SQ.postprocess_questions opts fA (q :: rest) k).2.2 =
          (SQ.Question.postprocess opts fA q k).2.2 ++
            (SQ.postprocess_questions opts fA rest
              (SQ.Question.postprocess opts fA q k).2.1).2.2 := rfl
      rw [e1, e2, h4, h2, List.length_append]
      omega

lemma quiz_postprocess_trace (opts : SQ.Options)
    (fA : Nat → List SQ.Answer → List SQ.Answer)
    (fQ : Nat → List SQ.Question → List SQ.Question) (qz : SQ.Quiz) (k : Nat) :
    (SQ.Quiz.postprocess opts fA fQ qz k).2.2 =
      (if opts.shufflequestions then [SQ.Site.questions] else []) ++
        (if opts.shuffleanswers then
          List.replicate
            (SQ.Quiz.shuffle_questions opts fQ qz k).1.questions.length
            SQ.Site.answers
        else []) ∧
    (SQ.Quiz.postprocess opts fA fQ qz k).2.1 =
      k + (SQ.Quiz.postprocess opts fA fQ qz k).2.2.length := by
  obtain ⟨h1, h2⟩ := postprocess_questions_trace opts fA
    (SQ.Quiz.shuffle_questions opts fQ qz k).1.questions
    (SQ.Quiz.shuffle_questions opts fQ qz k).2.1
  have h3 : (SQ.Quiz.shuffle_questions opts fQ qz k).2.2 =
      (if opts.shufflequestions then [SQ.Site.questions] else []) ∧
      (SQ.Quiz.shuffle_questions opts fQ qz k).2.1 =
        k + (SQ.Quiz.shuffle_questions opts fQ qz k).2.2.length := by
    by_cases h : opts.shufflequestions = true <;>
      simp [SQ.Quiz.shuffle_questions, h]
  constructor
  · simp only [SQ.Quiz.postprocess, h1, h3.1]
  · have e1 : (SQ.Quiz.postprocess opts fA fQ qz k).2.1 =
        (SQ.postprocess_questions opts fA
          (SQ.Quiz.shuffle_questions opts fQ qz k).1.questions
          (SQ.Quiz.shuffle_questions opts fQ qz k).2.1).2.1 := rfl
    have e2 : (SQ.Quiz.postprocess opts fA fQ qz k).2.2 =
        (SQ.Quiz.shuffle_questions opts fQ qz k).2.2 ++
          (SQ.postprocess_questions opts fA
            (SQ.Quiz.shuffle_questions opts fQ qz k).1.questions
            (SQ.Quiz.shuffle_questions opts fQ qz k).2.1).2.2 := rfl
    rw [e1, e2, h2, h3.2, List.length_append]
    omega

/-- Claim C6, counterexample.  The claim says the stable draw order is
answer shuffles before question shuffles.  On a quiz of two questions
with both shuffles enabled, the run draws for the question shuffle
first and the answer shuffles after it, so an earlier `questions` draw
precedes `answers` draws. -/
theorem c6_counterexample_questions_drawn_before_answers :
    c6_trace = [SQ.Site.questions, SQ.Site.answers, SQ.Site.answers] ∧
    ¬ answers_before_questions c6_trace := by
  constructor
  · decide
  · unfold answers_before_questions
    decide

/-- Claim C6, amended.  All draws come from the single generator counter
threaded through postprocessing in a stable order: within each quiz the
question-shuffle draw (when enabled) comes first, followed by one
answer-shuffle draw per question of the (shuffled) quiz; the counter
advances by exactly one per recorded draw; and with file shuffling the
pooling into `allfiles` happens before any draw.  The embedding is a
pure function of inputs, options and the generator's draws, so equal
seeds give equal outputs. -/
theorem c6_amended_single_generator_stable_order :
    (∀ (opts : SQ.Options) (fA : Nat → List SQ.Answer → List SQ.Answer)
        (fQ : Nat → List SQ.Question → List SQ.Question) (qz : SQ.Quiz)
        (k : Nat),
        (SQ.Quiz.postprocess opts fA fQ qz k).2.2 =
          (if opts.shufflequestions then [SQ.Site.questions] else []) ++
            (if opts.shuffleanswers then
              List.replicate
                (SQ.Quiz.shuffle_questions opts fQ qz k).1.questions.length
                SQ.Site.answers
            else []) ∧
        (SQ.Quiz.postprocess opts fA fQ qz k).2.1 =
          k + (SQ.Quiz.postprocess opts fA fQ qz k).2.2.length) ∧
    (∀ (opts : SQ.Options) (fA : Nat → List SQ.Answer → List SQ.Answer)
        (fQ : Nat → List SQ.Question → List SQ.Question)
        (quizes : List SQ.Quiz) (k : Nat),
        (SQ.postprocess_quizes opts fA fQ quizes k).2.1 =
          k + (SQ.postprocess_quizes opts fA fQ quizes k).2.2.length) ∧
    (∀ (opts : SQ.Options) (fA : Nat → List SQ.Answer → List SQ.Answer)
        (fQ : Nat → List SQ.Question → List SQ.Question)
        (quizes : List SQ.Quiz) (k : Nat),
        opts.shufflefiles = true →
        SQ.QuizSet_postprocess opts fA fQ quizes k =
          SQ.postprocess_quizes opts fA fQ
            [{ filename := "allfiles",
               questions := (quizes.map SQ.Quiz.questions).flatten }] k) := by
  refine ⟨fun opts fA fQ qz k => quiz_postprocess_trace opts fA fQ qz k,
    ?_, ?_⟩
  · intro opts fA fQ quizes
    induction quizes with
    | nil => intro k; simp [SQ.postprocess_quizes]
    | cons qz rest ih =>
      intro k
      have h1 := (quiz_postprocess_trace opts fA fQ qz k).2
      have h2 := ih (SQ.Quiz.postprocess opts fA fQ qz k).2.1
      have e1 : (SQ.postprocess_quizes opts fA fQ (qz :: rest) k).2.1 =
          (SQ.postprocess_quizes opts fA fQ rest
            (SQ.Quiz.postprocess opts fA fQ qz k).2.1).2.1 := rfl
      have e2 : (SQ.postprocess_quizes opts fA fQ (qz :: rest) k).2.2 =
          (SQ.Quiz.postprocess opts fA fQ qz k).2.2 ++
            (SQ.postprocess_quizes opts fA fQ rest
              (SQ.Quiz.postprocess opts fA fQ qz k).2.1).2.2 := rfl
      rw [e1, e2, h2, h1, List.length_append]
      omega
  · intro opts fA fQ quizes k h
    simp [SQ.QuizSet_postprocess, h]

/-- Witness for the amended C6 theorem at a concrete configuration. -/
theorem c6_amended_witness :
    SQ.QuizSet_postprocess
        { c6_options with shufflefiles := true } (fun _ l => l)
        (fun _ l => l) [two_question_quiz] 0 =
      SQ.postprocess_quizes { c6_options with shufflefiles := true }
        (fun _ l => l) (fun _ l => l)
        [{ filename := "allfiles",
           questions :=
             (([two_question_quiz].map SQ.Quiz.questions)).flatten }] 0 :=
  c6_amended_single_generator_stable_order.2.2
    { c6_options with shufflefiles := true } (fun _ l => l) (fun _ l => l)
    [two_question_quiz] 0 rfl

/-- The claim's reading of the answer-marker flags, written from its
words: on the right-stripped line, if the very last character is the
finality letter `f` then the answer is final and the correctness
character is the second-to-last character, otherwise it is not final
and the correctness character is the last character; `+` is correct,
`-` incorrect, anything else malformed (`none`). -/
def claim_answer_flags (lin : String) : Option (Bool × Bool) :=
  let t := rstripChars lin.data
  if t.getLast? = some 'f' then
    if t[t.length - 2]? = some '+' then some (true, true)
    else if t[t.length - 2]? = some '-' then some (false, true)
    else none
  else
    if t.getLast? = some '+' then some (true, false)
    else if t.getLast? = some '-' then some (false, false)
    else none

lemma drop_length_sub_one {α : Type} (l : List α) :
    l.drop (l.length - 1) = l.getLast?.toList := by
  induction l using List.reverseRecOn with
  | nil => rfl
  | append_singleton s b ih =>
    rw [List.getLast?_concat]
    have h1 : (s ++ [b]).length - 1 = s.length := by simp
    rw [h1, List.drop_left]
    rfl

lemma answer_marker_not_question (lin : String)
    (h : SQ.is_an_answer lin = true) : SQ.is_a_question lin = false := by
  simp only [SQ.is_an_answer, py_startswith, decide_eq_true_eq] at h
  simp only [SQ.is_a_question, py_startswith]
  rw [show (".. " ++ SQ.QUESTION_MARK ++ ":") = ".. pregunta:" from rfl]
  rw [show (".. " ++ SQ.ANSWER_MARK ++ ":") = ".. resposta:" from rfl] at h
  have e1 : (".. resposta:".data.length) = 12 := rfl
  have e2 : (".. pregunta:".data.length) = 12 := rfl
  rw [e1] at h
  rw [e2, h]
  decide

lemma process_answer_mark_eq_claim (lin : String)
    (h : SQ.is_an_answer lin = true) :
    SQ.process_answer_mark lin = claim_answer_flags lin := by
  unfold SQ.process_answer_mark claim_answer_flags
  rw [if_pos h]
  generalize rstripChars lin.data = t
  induction t using List.reverseRecOn with
  | nil => rfl
  | append_singleton s c _ih =>
    have hdrop : (s ++ [c]).drop ((s ++ [c]).length - 1) = [c] := by
      rw [drop_length_sub_one, List.getLast?_concat]
      rfl
    have hlast : (s ++ [c]).getLast? = some c := List.getLast?_concat s
    have hdl : (s ++ [c]).dropLast = s := List.dropLast_concat
    have hlen2 : (s ++ [c]).length - 2 = s.length - 1 := by simp
    simp only [hdrop, hlast, hdl, hlen2]
    by_cases hc : c = 'f'
    · subst hc
      rcases hs : s.getLast? with _ | c2
      · have hsnil : s = [] := by rwa [List.getLast?_eq_none_iff] at hs
        subst hsnil
        decide
      · have hsne : s ≠ [] := by
          intro hnil
          rw [hnil] at hs
          simp at hs
        have hv : s.drop (s.length - 1) = [c2] := by
          rw [drop_length_sub_one, hs]
          rfl
        have hg : (s ++ ['f'])[s.length - 1]? = some c2 := by
          rw [List.getElem?_append_left (by
            have := List.length_pos.mpr hsne
            omega), ← List.getLast?_eq_getElem?, hs]
        simp only [hv, hg]
        by_cases h2 : c2 = '+'
        · subst h2
          simp
        · by_cases h3 : c2 = '-'
          · subst h3
            simp
          · simp [h2, h3]
    · have e1 : (decide (([c] : List Char) = ['f'])) = false := by
        simp [hc]
      have e2 : ((some c = some 'f') : Prop) = False := by
        simp [hc]
      simp only [e1, e2, Bool.false_eq_true, if_false]
      by_cases h2 : c = '+'
      · subst h2
        simp
      · by_cases h3 : c = '-'
        · subst h3
          simp
        · simp [h2, h3]

/-- Claim C3.  For every answer-marker line the flags are decoded exactly
as the claim reads them (`process_answer_mark` agrees with the decoder
written from the claim's words); a marker whose correctness character is
neither `+` nor `-` decodes to `none`, which makes the scan fail with
"badformed answer header" at that exact 1-based line number both from
the description state and from the answer state; and a concrete file
with a trailing `x` marker on line 5 fails at line 5. -/
theorem c3_answer_marker_flag_decoding :
    (∀ lin : String, SQ.is_an_answer lin = true →
        SQ.process_answer_mark lin = claim_answer_flags lin) ∧
    (∀ (filename : String) (opts : SQ.Options) (lin : String) (nlin : Nat)
        (q : SQ.Question) (qs : List SQ.Question),
        SQ.is_an_answer lin = true →
        SQ.process_answer_mark lin = none →
        q.has_proper_description = true →
        SQ.scan_description filename opts lin nlin q qs =
          .error (.scanError filename nlin "badformed answer header")) ∧
    (∀ (filename : String) (opts : SQ.Options) (lin : String) (nlin : Nat)
        (q : SQ.Question) (qs : List SQ.Question),
        SQ.is_an_answer lin = true →
        SQ.process_answer_mark lin = none →
        q.get_nr_answers < opts.maxanswers →
        q.has_finished_current_answer = some true →
        SQ.scan_answer filename opts lin nlin q qs =
          .error (.scanError filename nlin "badformed answer header")) ∧
    (SQ.scan_quiz_file "f.quiz" default_options
        [".. pregunta:\n", "T\n", ".. enunciat:\n", "D\n",
         ".. resposta: x\n", "A\n"] =
      .error (.scanError "f.quiz" 5 "badformed answer header")) := by
  refine ⟨process_answer_mark_eq_claim, ?_, ?_, by decide⟩
  · intro filename opts lin nlin q qs ha hn hd
    simp only [SQ.scan_description, ha, hd, if_true,
      SQ.process_current_answer, hn]
  · intro filename opts lin nlin q qs ha hn hcnt hfin
    have hq := answer_marker_not_question lin ha
    simp only [SQ.scan_answer, hq, Bool.false_eq_true, if_false, ha, if_true,
      SQ.process_current_answer, hn, hfin]
    rw [if_neg (by omega)]

/-- Witness for `c3_answer_marker_flag_decoding` at concrete inputs. -/
theorem c3_answer_marker_flag_decoding_witness :
    SQ.process_answer_mark ".. resposta: +\n" =
      claim_answer_flags ".. resposta: +\n" ∧
    SQ.scan_description "f.quiz" default_options ".. resposta: x\n" 5
        { title := " T", descr := "D\n", answers := [], final_answers := [],
          current_answer := none } [] =
      .error (.scanError "f.quiz" 5 "badformed answer header") ∧
    SQ.scan_answer "f.quiz" default_options ".. resposta: x\n" 7
        one_answer_question [] =
      .error (.scanError "f.quiz" 7 "badformed answer header") :=
  ⟨c3_answer_marker_flag_decoding.1 _ (by decide),
    c3_answer_marker_flag_decoding.2.1 "f.quiz" default_options _ 5 _ []
      (by decide) (by decide) (by decide),
    c3_answer_marker_flag_decoding.2.2.1 "f.quiz" default_options _ 7 _ []
      (by decide) (by decide) (by decide) (by decide)⟩

lemma updateLast_concat {α : Type} (f : α → α) :
    ∀ (l : List α) (a : α), updateLast f (l ++ [a]) = l ++ [f a]
  | [], _ => rfl
  | [_], _ => rfl
  | b :: c :: t, a => by
    have ih := updateLast_concat f (c :: t) a
    show b :: updateLast f ((c :: t) ++ [a]) = b :: ((c :: t) ++ [f a])
    rw [ih]

lemma updateLast_dropLast {α : Type} (f : α → α) (l : List α) :
    (updateLast f l).dropLast = l.dropLast := by
  induction l using List.reverseRecOn with
  | nil => rfl
  | append_singleton s a _ih =>
    rw [updateLast_concat, List.dropLast_concat, List.dropLast_concat]

lemma updateLast_ne_nil {α : Type} (f : α → α) (l : List α) (h : l ≠ []) :
    updateLast f l ≠ [] := by
  induction l using List.reverseRecOn with
  | nil => exact absurd rfl h
  | append_singleton s a _ih =>
    rw [updateLast_concat]
    simp

lemma updateLast_length {α : Type} (f : α → α) (l : List α) :
    (updateLast f l).length = l.length := by
  induction l using List.reverseRecOn with
  | nil => rfl
  | append_singleton s a _ih =>
    rw [updateLast_concat]
    simp

/-- All answers in the list have non-empty text. -/
def answers_ok (l : List SQ.Answer) : Prop := ∀ a ∈ l, a.text ≠ ""

/-- The in-progress invariant of the `answer` scanner state: the current
answer is the last of the list `current_answer` designates, that list is
non-empty, and every answer other than the current one is complete. -/
def CurInv (q : SQ.Question) : Prop :=
  (q.current_answer = some true →
    q.final_answers ≠ [] ∧ answers_ok q.answers ∧
      answers_ok q.final_answers.dropLast) ∧
  (q.current_answer = some false →
    q.answers ≠ [] ∧ answers_ok q.final_answers ∧
      answers_ok q.answers.dropLast) ∧
  q.current_answer ≠ none

/-- The scanner's per-state invariant on the in-progress question. -/
def QInv : SQ.ScanState → SQ.Question → Prop
  | .question, q => q = SQ.Question.initial
  | .title, q => q.descr = "" ∧ q.answers = [] ∧ q.final_answers = [] ∧
      q.current_answer = none
  | .description, q => q.title ≠ "" ∧ q.answers = [] ∧ q.final_answers = [] ∧
      q.current_answer = none
  | .answer, q => q.title ≠ "" ∧ q.descr ≠ "" ∧ CurInv q

lemma committed_ok_iff (q : SQ.Question) :
    committed_ok q = true ↔
      (q.title ≠ "" ∧ q.descr ≠ "" ∧
        answers_ok (q.answers ++ q.final_answers)) := by
  simp only [committed_ok, answers_ok, List.all_eq_true, Bool.and_eq_true,
    bne_iff_ne, List.mem_append]
  tauto

lemma answers_ok_of_complete (l : List SQ.Answer) (h1 : l ≠ [])
    (h2 : answers_ok l.dropLast)
    (h3 : (l.getLastD default).is_complete = true) : answers_ok l := by
  induction l using List.reverseRecOn with
  | nil => exact absurd rfl h1
  | append_singleton s b _ih =>
    intro a ha
    rw [List.dropLast_concat] at h2
    rcases List.mem_append.mp ha with hmem | hmem
    · exact h2 a hmem
    · rw [List.mem_singleton] at hmem
      subst hmem
      have hlast : (s ++ [a]).getLastD default = a := by
        simp [List.getLastD_eq_getLast?, List.getLast?_concat]
      rw [hlast] at h3
      simpa [SQ.Answer.is_complete] using h3

lemma all_answers_ok_of_finished (q : SQ.Question) (hcur : CurInv q)
    (hfin : q.has_finished_current_answer = some true) :
    answers_ok q.answers ∧ answers_ok q.final_answers := by
  unfold SQ.Question.has_finished_current_answer at hfin
  obtain ⟨h1, h2, h3⟩ := hcur
  rcases hc : q.current_answer with _ | b
  · exact absurd hc h3
  · rw [hc] at hfin
    cases b
    · obtain ⟨hne, hfo, hdo⟩ := h2 hc
      have hlast : (q.answers.getLastD default).is_complete = true := by
        simpa using hfin
      exact ⟨answers_ok_of_complete _ hne hdo hlast, hfo⟩
    · obtain ⟨hne, hao, hdo⟩ := h1 hc
      have hlast : (q.final_answers.getLastD default).is_complete = true := by
        simpa using hfin
      exact ⟨hao, answers_ok_of_complete _ hne hdo hlast⟩

lemma committed_ok_of_answer_complete (q : SQ.Question)
    (ht : q.title ≠ "") (hd : q.descr ≠ "") (hcur : CurInv q)
    (hfin : q.has_finished_current_answer = some true) :
    committed_ok q = true := by
  rw [committed_ok_iff]
  obtain ⟨hao, hfo⟩ := all_answers_ok_of_finished q hcur hfin
  refine ⟨ht, hd, fun a ha => ?_⟩
  rcases List.mem_append.mp ha with h | h
  · exact hao a h
  · exact hfo a h

lemma committed_ok_of_is_complete (st : SQ.ScanState) (q : SQ.Question)
    (hinv : QInv st q) (hc : q.is_complete = some true) :
    committed_ok q = true := by
  unfold SQ.Question.is_complete at hc
  by_cases ht : q.has_proper_title = true
  case neg =>
    rw [if_neg ht] at hc
    simp at hc
  rw [if_pos ht] at hc
  by_cases hd : q.has_proper_description = true
  case neg =>
    rw [if_neg hd] at hc
    simp at hc
  rw [if_pos hd] at hc
  have ht2 : q.title ≠ "" := by
    simpa [SQ.Question.has_proper_title] using ht
  have hd2 : q.descr ≠ "" := by
    simpa [SQ.Question.has_proper_description] using hd
  cases st with
  | question =>
    rw [hinv] at hc
    simp [SQ.Question.has_finished_current_answer, SQ.Question.initial] at hc
  | title =>
    obtain ⟨_, _, _, hcu⟩ := hinv
    simp [SQ.Question.has_finished_current_answer, hcu] at hc
  | description =>
    obtain ⟨_, _, _, hcu⟩ := hinv
    simp [SQ.Question.has_finished_current_answer, hcu] at hc
  | answer =>
    obtain ⟨_, _, hcur⟩ := hinv
    exact committed_ok_of_answer_complete q ht2 hd2 hcur hc

lemma answers_ok_nil : answers_ok [] := by
  intro a ha
  simp at ha

lemma addAnswer_title (opts : SQ.Options) (q : SQ.Question) (a : SQ.Answer) :
    (q.addAnswer opts a).title = q.title := by
  unfold SQ.Question.addAnswer
  split <;> rfl

lemma addAnswer_descr (opts : SQ.Options) (q : SQ.Question) (a : SQ.Answer) :
    (q.addAnswer opts a).descr = q.descr := by
  unfold SQ.Question.addAnswer
  split <;> rfl

lemma CurInv_addAnswer (opts : SQ.Options) (q : SQ.Question) (a : SQ.Answer)
    (hao : answers_ok q.answers) (hfo : answers_ok q.final_answers) :
    CurInv (q.addAnswer opts a) := by
  unfold SQ.Question.addAnswer CurInv
  split
  · refine ⟨fun _ => ⟨by simp, hao, ?_⟩, fun hx => by simp at hx, by simp⟩
    show answers_ok (q.final_answers ++ [a]).dropLast
    rw [List.dropLast_concat]
    exact hfo
  · refine ⟨fun hx => by simp at hx, fun _ => ⟨by simp, hfo, ?_⟩, by simp⟩
    show answers_ok (q.answers ++ [a]).dropLast
    rw [List.dropLast_concat]
    exact hao

lemma QInv_title_reset (q : SQ.Question) : QInv .title q.reset := by
  simp [QInv, SQ.Question.reset, SQ.Question.initial]

lemma scan_question_inv (filename lin : String) (nlin : Nat)
    (q q2 : SQ.Question) (st2 : SQ.ScanState)
    (hinv : QInv .question q)
    (h : SQ.scan_question filename lin nlin q = .ok (st2, q2)) :
    QInv st2 q2 := by
  unfold SQ.scan_question at h
  split at h
  · simp only [Except.ok.injEq, Prod.mk.injEq] at h
    obtain ⟨h1, h2⟩ := h
    subst h1
    subst h2
    exact QInv_title_reset q
  · split at h
    · simp at h
    · simp only [Except.ok.injEq, Prod.mk.injEq] at h
      obtain ⟨h1, h2⟩ := h
      subst h1
      subst h2
      exact hinv

lemma scan_title_inv (filename lin : String) (nlin : Nat)
    (q q2 : SQ.Question) (st2 : SQ.ScanState)
    (hinv : QInv .title q)
    (h : SQ.scan_title filename lin nlin q = .ok (st2, q2)) :
    QInv st2 q2 := by
  obtain ⟨hd, ha, hf, hcu⟩ := hinv
  unfold SQ.scan_title at h
  split at h
  · simp at h
  · split at h
    case isTrue hdm =>
      split at h
      case isTrue hti =>
        simp only [Except.ok.injEq, Prod.mk.injEq] at h
        obtain ⟨h1, h2⟩ := h
        subst h1
        subst h2
        exact ⟨by simpa [SQ.Question.has_proper_title] using hti, ha, hf, hcu⟩
      case isFalse hti => simp at h
    case isFalse hdm =>
      split at h
      · simp at h
      · split at h
        · simp only [Except.ok.injEq, Prod.mk.injEq] at h
          obtain ⟨h1, h2⟩ := h
          subst h1
          subst h2
          simp only [SQ.Question.appendToTitle]
          split
          · exact ⟨hd, ha, hf, hcu⟩
          · exact ⟨hd, ha, hf, hcu⟩
        · simp only [Except.ok.injEq, Prod.mk.injEq] at h
          obtain ⟨h1, h2⟩ := h
          subst h1
          subst h2
          exact ⟨hd, ha, hf, hcu⟩

lemma scan_description_inv (filename : String) (opts : SQ.Options)
    (lin : String) (nlin : Nat) (q q2 : SQ.Question) (st2 : SQ.ScanState)
    (qs qs2 : List SQ.Question)
    (hinv : QInv .description q)
    (hqs : ∀ x ∈ qs, committed_ok x = true)
    (h : SQ.scan_description filename opts lin nlin q qs =
      .ok (st2, q2, qs2)) :
    QInv st2 q2 ∧ ∀ x ∈ qs2, committed_ok x = true := by
  obtain ⟨ht, ha, hf, hcu⟩ := hinv
  unfold SQ.scan_description at h
  split at h
  · split at h
    case isTrue hpd =>
      unfold SQ.process_current_answer at h
      rcases hm : SQ.process_answer_mark lin with _ | ⟨c, f⟩
      · rw [hm] at h
        simp at h
      · rw [hm] at h
        simp only [Except.ok.injEq, Prod.mk.injEq] at h
        obtain ⟨h1, h2, h3⟩ := h
        subst h1
        subst h2
        subst h3
        refine ⟨⟨?_, ?_, CurInv_addAnswer opts q _ ?_ ?_⟩, hqs⟩
        · rw [addAnswer_title]
          exact ht
        · rw [addAnswer_descr]
          simpa [SQ.Question.has_proper_description] using hpd
        · rw [ha]
          exact answers_ok_nil
        · rw [hf]
          exact answers_ok_nil
    case isFalse hpd => simp at h
  · split at h
    · split at h
      case isTrue hpd =>
        simp only [Except.ok.injEq, Prod.mk.injEq] at h
        obtain ⟨h1, h2, h3⟩ := h
        subst h1
        subst h2
        subst h3
        have hcl : committed_ok q.clone = true := by
          rw [committed_ok_iff]
          refine ⟨ht, by simpa [SQ.Question.has_proper_description] using hpd,
            ?_⟩
          show answers_ok (q.answers ++ q.final_answers)
          rw [ha, hf]
          exact answers_ok_nil
        refine ⟨QInv_title_reset q, fun x hx => ?_⟩
        rcases List.mem_append.mp hx with hx2 | hx2
        · exact hqs x hx2
        · rw [List.mem_singleton] at hx2
          subst hx2
          exact hcl
      case isFalse hpd => simp at h
    · split at h
      · simp at h
      · split at h
        · simp only [Except.ok.injEq, Prod.mk.injEq] at h
          obtain ⟨h1, h2, h3⟩ := h
          subst h1
          subst h2
          subst h3
          exact ⟨⟨ht, ha, hf, hcu⟩, hqs⟩
        · simp only [Except.ok.injEq, Prod.mk.injEq] at h
          obtain ⟨h1, h2, h3⟩ := h
          subst h1
          subst h2
          subst h3
          exact ⟨⟨ht, ha, hf, hcu⟩, hqs⟩

lemma scan_answer_inv (filename : String) (opts : SQ.Options)
    (lin : String) (nlin : Nat) (q q2 : SQ.Question) (st2 : SQ.ScanState)
    (qs qs2 : List SQ.Question)
    (hinv : QInv .answer q)
    (hqs : ∀ x ∈ qs, committed_ok x = true)
    (h : SQ.scan_answer filename opts lin nlin q qs = .ok (st2, q2, qs2)) :
    QInv st2 q2 ∧ ∀ x ∈ qs2, committed_ok x = true := by
  obtain ⟨ht, hd, hcur⟩ := hinv
  unfold SQ.scan_answer at h
  split at h
  · rcases hfin : q.has_finished_current_answer with _ | b
    · rw [hfin] at h
      simp at h
    · rw [hfin] at h
      cases b
      · simp at h
      · simp only [Except.ok.injEq, Prod.mk.injEq] at h
        obtain ⟨h1, h2, h3⟩ := h
        subst h1
        subst h2
        subst h3
        have hco : committed_ok q = true :=
          committed_ok_of_answer_complete q ht hd hcur hfin
        refine ⟨QInv_title_reset q, fun x hx => ?_⟩
        rcases List.mem_append.mp hx with hx2 | hx2
        · exact hqs x hx2
        · rw [List.mem_singleton] at hx2
          subst hx2
          exact hco
  · split at h
    · split at h
      · simp at h
      · rcases hfin : q.has_finished_current_answer with _ | b
        · rw [hfin] at h
          simp at h
        · rw [hfin] at h
          cases b
          · simp at h
          · unfold SQ.process_current_answer at h
            rcases hm : SQ.process_answer_mark lin with _ | ⟨c, f⟩
            · rw [hm] at h
              simp at h
            · rw [hm] at h
              simp only [Except.ok.injEq, Prod.mk.injEq] at h
              obtain ⟨h1, h2, h3⟩ := h
              subst h1
              subst h2
              subst h3
              obtain ⟨hao, hfo⟩ := all_answers_ok_of_finished q hcur hfin
              refine ⟨⟨?_, ?_, CurInv_addAnswer opts q _ hao hfo⟩, hqs⟩
              · rw [addAnswer_title]
                exact ht
              · rw [addAnswer_descr]
                exact hd
    · split at h
      · simp at h
      · split at h
        · rcases hcu : q.current_answer with _ | b
          · unfold SQ.Question.current_answer_add_description at h
            rw [hcu] at h
            simp at h
          · unfold SQ.Question.current_answer_add_description at h
            rw [hcu] at h
            cases b
            · simp only [Except.ok.injEq, Prod.mk.injEq] at h
              obtain ⟨h1, h2, h3⟩ := h
              subst h1
              subst h2
              subst h3
              obtain ⟨c1, c2, _c3⟩ := hcur
              obtain ⟨hne, hfo, hdo⟩ := c2 hcu
              refine ⟨⟨ht, hd, ?_, ?_, ?_⟩, hqs⟩
              · intro hx
                exfalso
                simp at hx
              · intro _
                refine ⟨updateLast_ne_nil _ _ hne, hfo, ?_⟩
                show answers_ok
                  (updateLast (fun a => a.add_description lin)
                    q.answers).dropLast
                rw [updateLast_dropLast]
                exact hdo
              · simp
            · simp only [Except.ok.injEq, Prod.mk.injEq] at h
              obtain ⟨h1, h2, h3⟩ := h
              subst h1
              subst h2
              subst h3
              obtain ⟨c1, c2, _c3⟩ := hcur
              obtain ⟨hne, hao, hdo⟩ := c1 hcu
              refine ⟨⟨ht, hd, ?_, ?_, ?_⟩, hqs⟩
              · intro _
                refine ⟨updateLast_ne_nil _ _ hne, hao, ?_⟩
                show answers_ok
                  (updateLast (fun a => a.add_description lin)
                    q.final_answers).dropLast
                rw [updateLast_dropLast]
                exact hdo
              · intro hx
                exfalso
                simp at hx
              · simp
        · simp only [Except.ok.injEq, Prod.mk.injEq] at h
          obtain ⟨h1, h2, h3⟩ := h
          subst h1
          subst h2
          subst h3
          exact ⟨⟨ht, hd, hcur⟩, hqs⟩

lemma scan_lines_committed_ok (filename : String) (opts : SQ.Options) :
    ∀ (lines : List String) (nlin : Nat) (st : SQ.ScanState)
      (q : SQ.Question) (qs out : List SQ.Question),
      QInv st q →
      (∀ x ∈ qs, committed_ok x = true) →
      SQ.scan_lines filename opts lines nlin st q qs = .ok out →
      ∀ x ∈ out, committed_ok x = true := by
  intro lines
  induction lines with
  | nil =>
    intro nlin st q qs out hq hqs hrun
    unfold SQ.scan_lines at hrun
    rcases hc : q.is_complete with _ | b
    · rw [hc] at hrun
      simp at hrun
    · rw [hc] at hrun
      cases b
      · simp at hrun
      · simp only [Except.ok.injEq] at hrun
        subst hrun
        intro x hx
        rcases List.mem_append.mp hx with hmem | hmem
        · exact hqs x hmem
        · rw [List.mem_singleton] at hmem
          rw [hmem]
          exact committed_ok_of_is_complete st q hq hc
  | cons lin rest ih =>
    intro nlin st q qs out hq hqs hrun
    unfold SQ.scan_lines at hrun
    by_cases hcom : SQ.is_a_comment lin = true
    · rw [if_pos hcom] at hrun
      exact ih _ _ _ _ _ hq hqs hrun
    · rw [if_neg hcom] at hrun
      cases st with
      | question =>
        rcases hstep : SQ.scan_question filename lin (nlin + 1) q with e | ⟨st2, q2⟩
        · rw [hstep] at hrun
          simp at hrun
        · rw [hstep] at hrun
          exact ih _ _ _ _ _
            (scan_question_inv filename lin (nlin + 1) q q2 st2 hq hstep)
            hqs hrun
      | title =>
        rcases hstep : SQ.scan_title filename lin (nlin + 1) q with e | ⟨st2, q2⟩
        · rw [hstep] at hrun
          simp at hrun
        · rw [hstep] at hrun
          exact ih _ _ _ _ _
            (scan_title_inv filename lin (nlin + 1) q q2 st2 hq hstep)
            hqs hrun
      | description =>
        rcases hstep : SQ.scan_description filename opts lin (nlin + 1) q qs
          with e | ⟨st2, q2, qs2⟩
        · rw [hstep] at hrun
          simp at hrun
        · rw [hstep] at hrun
          obtain ⟨hi2, hqs2⟩ := scan_description_inv filename opts lin
            (nlin + 1) q q2 st2 qs qs2 hq hqs hstep
          exact ih _ _ _ _ _ hi2 hqs2 hrun
      | answer =>
        rcases hstep : SQ.scan_answer filename opts lin (nlin + 1) q qs
          with e | ⟨st2, q2, qs2⟩
        · rw [hstep] at hrun
          simp at hrun
        · rw [hstep] at hrun
          obtain ⟨hi2, hqs2⟩ := scan_answer_inv filename opts lin
            (nlin + 1) q q2 st2 qs qs2 hq hqs hstep
          exact ih _ _ _ _ _ hi2 hqs2 hrun

/-- Claim C9.  Every question the scanner commits — at a question marker
from the description state, at a question marker from the answer state,
or at end of file — has a non-empty title, a non-empty description, and
only answers with non-empty text. -/
theorem c9_committed_questions_wellformed
    (filename : String) (opts : SQ.Options) (lines : List String)
    (qs : List SQ.Question)
    (h : SQ.scan_quiz_file filename opts lines = .ok qs) :
    ∀ q ∈ qs, committed_ok q = true := by
  exact scan_lines_committed_ok filename opts lines 0 .question
    SQ.Question.initial [] qs rfl (by simp) h

/-- Witness for `c9_committed_questions_wellformed` on a concrete scan. -/
theorem c9_committed_questions_wellformed_witness :
    committed_ok
      { title := " T", descr := "D\n",
        answers := [{ is_correct := true, is_final := false, text := "A\n",
                      weight := 0 }],
        final_answers := [], current_answer := some false } = true :=
  c9_committed_questions_wellformed "f.quiz" default_options
    [".. pregunta:\n", "T\n", ".. enunciat:\n", "D\n", ".. resposta: +\n",
     "A\n"]
    [{ title := " T", descr := "D\n",
       answers := [{ is_correct := true, is_final := false, text := "A\n",
                     weight := 0 }],
       final_answers := [], current_answer := some false }]
    (by decide) _ (by decide)

/-- The scanner's per-state bound on the number of answers already held
by the in-progress question. -/
def CntInv (m : Nat) : SQ.ScanState → SQ.Question → Prop
  | .answer, q => q.get_nr_answers ≤ m
  | _, q => q.get_nr_answers = 0

lemma get_nr_appendToTitle (q : SQ.Question) (s : String) :
    (q.appendToTitle s).get_nr_answers = q.get_nr_answers := by
  simp only [SQ.Question.appendToTitle]
  split <;> rfl

lemma get_nr_addAnswer (opts : SQ.Options) (q : SQ.Question) (a : SQ.Answer) :
    (q.addAnswer opts a).get_nr_answers = q.get_nr_answers + 1 := by
  unfold SQ.Question.addAnswer SQ.Question.get_nr_answers
  split
  all_goals simp [SQ.Question.get_nr_answers, List.length_append]
  all_goals omega

lemma get_nr_cadd (q : SQ.Question) (lin : String) (q2 : SQ.Question)
    (h : q.current_answer_add_description lin = some q2) :
    q2.get_nr_answers = q.get_nr_answers := by
  unfold SQ.Question.current_answer_add_description at h
  rcases hcu : q.current_answer with _ | b
  · rw [hcu] at h
    simp at h
  · rw [hcu] at h
    cases b
    · simp only [Option.some.injEq] at h
      subst h
      simp [SQ.Question.get_nr_answers, updateLast_length]
    · simp only [Option.some.injEq] at h
      subst h
      simp [SQ.Question.get_nr_answers, updateLast_length]

lemma get_nr_reset (q : SQ.Question) :
    q.reset.get_nr_answers = 0 := rfl

lemma get_nr_clone (q : SQ.Question) :
    q.clone.get_nr_answers = q.get_nr_answers := rfl

lemma scan_question_cnt (m : Nat) (filename lin : String) (nlin : Nat)
    (q q2 : SQ.Question) (st2 : SQ.ScanState)
    (hinv : CntInv m .question q)
    (h : SQ.scan_question filename lin nlin q = .ok (st2, q2)) :
    CntInv m st2 q2 := by
  unfold SQ.scan_question at h
  split at h
  · simp only [Except.ok.injEq, Prod.mk.injEq] at h
    obtain ⟨h1, h2⟩ := h
    subst h1
    subst h2
    exact get_nr_reset q
  · split at h
    · simp at h
    · simp only [Except.ok.injEq, Prod.mk.injEq] at h
      obtain ⟨h1, h2⟩ := h
      subst h1
      subst h2
      exact hinv

lemma scan_title_cnt (m : Nat) (filename lin : String) (nlin : Nat)
    (q q2 : SQ.Question) (st2 : SQ.ScanState)
    (hinv : CntInv m .title q)
    (h : SQ.scan_title filename lin nlin q = .ok (st2, q2)) :
    CntInv m st2 q2 := by
  unfold SQ.scan_title at h
  split at h
  · simp at h
  · split at h
    · split at h
      · simp only [Except.ok.injEq, Prod.mk.injEq] at h
        obtain ⟨h1, h2⟩ := h
        subst h1
        subst h2
        exact hinv
      · simp at h
    · split at h
      · simp at h
      · split at h
        · simp only [Except.ok.injEq, Prod.mk.injEq] at h
          obtain ⟨h1, h2⟩ := h
          subst h1
          subst h2
          show (q.appendToTitle lin).get_nr_answers = 0
          rw [get_nr_appendToTitle]
          exact hinv
        · simp only [Except.ok.injEq, Prod.mk.injEq] at h
          obtain ⟨h1, h2⟩ := h
          subst h1
          subst h2
          exact hinv

lemma scan_description_cnt (m : Nat) (filename : String) (opts : SQ.Options)
    (lin : String) (nlin : Nat) (q q2 : SQ.Question) (st2 : SQ.ScanState)
    (qs qs2 : List SQ.Question)
    (hm : 1 ≤ m) (hmo : opts.maxanswers = m)
    (hinv : CntInv m .description q)
    (hqs : ∀ x ∈ qs, x.get_nr_answers ≤ m)
    (h : SQ.scan_description filename opts lin nlin q qs =
      .ok (st2, q2, qs2)) :
    CntInv m st2 q2 ∧ ∀ x ∈ qs2, x.get_nr_answers ≤ m := by
  unfold SQ.scan_description at h
  split at h
  · split at h
    · unfold SQ.process_current_answer at h
      rcases hpm : SQ.process_answer_mark lin with _ | ⟨c, f⟩
      · rw [hpm] at h
        simp at h
      · rw [hpm] at h
        simp only [Except.ok.injEq, Prod.mk.injEq] at h
        obtain ⟨h1, h2, h3⟩ := h
        subst h1
        subst h2
        subst h3
        refine ⟨?_, hqs⟩
        show (q.addAnswer opts (SQ.Answer.mk c f "" 0)).get_nr_answers ≤ m
        rw [get_nr_addAnswer]
        have h0 : q.get_nr_answers = 0 := hinv
        omega
    · simp at h
  · split at h
    · split at h
      · simp only [Except.ok.injEq, Prod.mk.injEq] at h
        obtain ⟨h1, h2, h3⟩ := h
        subst h1
        subst h2
        subst h3
        refine ⟨get_nr_reset q, fun x hx => ?_⟩
        rcases List.mem_append.mp hx with hmem | hmem
        · exact hqs x hmem
        · rw [List.mem_singleton] at hmem
          subst hmem
          rw [get_nr_clone]
          have h0 : q.get_nr_answers = 0 := hinv
          omega
      · simp at h
    · split at h
      · simp at h
      · split at h
        · simp only [Except.ok.injEq, Prod.mk.injEq] at h
          obtain ⟨h1, h2, h3⟩ := h
          subst h1
          subst h2
          subst h3
          exact ⟨hinv, hqs⟩
        · simp only [Except.ok.injEq, Prod.mk.injEq] at h
          obtain ⟨h1, h2, h3⟩ := h
          subst h1
          subst h2
          subst h3
          exact ⟨hinv, hqs⟩

lemma scan_answer_cnt (m : Nat) (filename : String) (opts : SQ.Options)
    (lin : String) (nlin : Nat) (q q2 : SQ.Question) (st2 : SQ.ScanState)
    (qs qs2 : List SQ.Question)
    (hmo : opts.maxanswers = m)
    (hinv : CntInv m .answer q)
    (hqs : ∀ x ∈ qs, x.get_nr_answers ≤ m)
    (h : SQ.scan_answer filename opts lin nlin q qs = .ok (st2, q2, qs2)) :
    CntInv m st2 q2 ∧ ∀ x ∈ qs2, x.get_nr_answers ≤ m := by
  have hcnt : q.get_nr_answers ≤ m := hinv
  unfold SQ.scan_answer at h
  split at h
  · rcases hfin : q.has_finished_current_answer with _ | b
    · rw [hfin] at h
      simp at h
    · rw [hfin] at h
      cases b
      · simp at h
      · simp only [Except.ok.injEq, Prod.mk.injEq] at h
        obtain ⟨h1, h2, h3⟩ := h
        subst h1
        subst h2
        subst h3
        refine ⟨get_nr_reset q, fun x hx => ?_⟩
        rcases List.mem_append.mp hx with hmem | hmem
        · exact hqs x hmem
        · rw [List.mem_singleton] at hmem
          subst hmem
          rw [get_nr_clone]
          exact hcnt
  · split at h
    · split at h
      case isTrue hge => simp at h
      case isFalse hge =>
        rcases hfin : q.has_finished_current_answer with _ | b
        · rw [hfin] at h
          simp at h
        · rw [hfin] at h
          cases b
          · simp at h
          · unfold SQ.process_current_answer at h
            rcases hpm : SQ.process_answer_mark lin with _ | ⟨c, f⟩
            · rw [hpm] at h
              simp at h
            · rw [hpm] at h
              simp only [Except.ok.injEq, Prod.mk.injEq] at h
              obtain ⟨h1, h2, h3⟩ := h
              subst h1
              subst h2
              subst h3
              refine ⟨?_, hqs⟩
              show (q.addAnswer opts (SQ.Answer.mk c f "" 0)).get_nr_answers ≤ m
              rw [get_nr_addAnswer]
              rw [hmo] at hge
              omega
    · split at h
      · simp at h
      · split at h
        · rcases hcu : q.current_answer_add_description lin with _ | q3
          · rw [hcu] at h
            simp at h
          · rw [hcu] at h
            simp only [Except.ok.injEq, Prod.mk.injEq] at h
            obtain ⟨h1, h2, h3⟩ := h
            subst h1
            subst h2
            subst h3
            refine ⟨?_, hqs⟩
            show q3.get_nr_answers ≤ m
            rw [get_nr_cadd q lin q3 hcu]
            exact hcnt
        · simp only [Except.ok.injEq, Prod.mk.injEq] at h
          obtain ⟨h1, h2, h3⟩ := h
          subst h1
          subst h2
          subst h3
          exact ⟨hcnt, hqs⟩

lemma scan_lines_count_le (filename : String) (opts : SQ.Options) (m : Nat)
    (hm : 1 ≤ m) (hmo : opts.maxanswers = m) :
    ∀ (lines : List String) (nlin : Nat) (st : SQ.ScanState)
      (q : SQ.Question) (qs out : List SQ.Question),
      CntInv m st q →
      (∀ x ∈ qs, x.get_nr_answers ≤ m) →
      SQ.scan_lines filename opts lines nlin st q qs = .ok out →
      ∀ x ∈ out, x.get_nr_answers ≤ m := by
  intro lines
  induction lines with
  | nil =>
    intro nlin st q qs out hq hqs hrun
    unfold SQ.scan_lines at hrun
    rcases hc : q.is_complete with _ | b
    · rw [hc] at hrun
      simp at hrun
    · rw [hc] at hrun
      cases b
      · simp at hrun
      · simp only [Except.ok.injEq] at hrun
        subst hrun
        intro x hx
        rcases List.mem_append.mp hx with hmem | hmem
        · exact hqs x hmem
        · rw [List.mem_singleton] at hmem
          subst hmem
          cases st with
          | question => exact le_of_eq_of_le hq (Nat.zero_le m)
          | title => exact le_of_eq_of_le hq (Nat.zero_le m)
          | description => exact le_of_eq_of_le hq (Nat.zero_le m)
          | answer => exact hq
  | cons lin rest ih =>
    intro nlin st q qs out hq hqs hrun
    unfold SQ.scan_lines at hrun
    by_cases hcom : SQ.is_a_comment lin = true
    · rw [if_pos hcom] at hrun
      exact ih _ _ _ _ _ hq hqs hrun
    · rw [if_neg hcom] at hrun
      cases st with
      | question =>
        rcases hstep : SQ.scan_question filename lin (nlin + 1) q
          with e | ⟨st2, q2⟩
        · rw [hstep] at hrun
          simp at hrun
        · rw [hstep] at hrun
          exact ih _ _ _ _ _
            (scan_question_cnt m filename lin (nlin + 1) q q2 st2 hq hstep)
            hqs hrun
      | title =>
        rcases hstep : SQ.scan_title filename lin (nlin + 1) q
          with e | ⟨st2, q2⟩
        · rw [hstep] at hrun
          simp at hrun
        · rw [hstep] at hrun
          exact ih _ _ _ _ _
            (scan_title_cnt m filename lin (nlin + 1) q q2 st2 hq hstep)
            hqs hrun
      | description =>
        rcases hstep : SQ.scan_description filename opts lin (nlin + 1) q qs
          with e | ⟨st2, q2, qs2⟩
        · rw [hstep] at hrun
          simp at hrun
        · rw [hstep] at hrun
          obtain ⟨hi2, hqs2⟩ := scan_description_cnt m filename opts lin
            (nlin + 1) q q2 st2 qs qs2 hm hmo hq hqs hstep
          exact ih _ _ _ _ _ hi2 hqs2 hrun
      | answer =>
        rcases hstep : SQ.scan_answer filename opts lin (nlin + 1) q qs
          with e | ⟨st2, q2, qs2⟩
        · rw [hstep] at hrun
          simp at hrun
        · rw [hstep] at hrun
          obtain ⟨hi2, hqs2⟩ := scan_answer_cnt m filename opts lin
            (nlin + 1) q q2 st2 qs qs2 hmo hq hqs hstep
          exact ih _ _ _ _ _ hi2 hqs2 hrun

/-- Claim C7.  An answer marker reaching a question that already holds
`maxAnswersPerQuestion` answers fails the scan with the answer-limit
error at that marker's 1-based line; no committed question ever holds
more than the configured maximum (for any maximum ≥ 2); and the
concrete three-marker file under `maxAnswersPerQuestion = 2` fails on
the third marker at line 9. -/
theorem c7_answer_limit_enforced :
    (∀ (filename : String) (opts : SQ.Options) (lin : String) (nlin : Nat)
        (q : SQ.Question) (qs : List SQ.Question),
        SQ.is_an_answer lin = true →
        q.get_nr_answers = opts.maxanswers →
        SQ.scan_answer filename opts lin nlin q qs =
          .error (.scanError filename nlin
            "exceded max nr of answers per question")) ∧
    (∀ (filename : String) (opts : SQ.Options) (lines : List String)
        (qs : List SQ.Question),
        2 ≤ opts.maxanswers →
        SQ.scan_quiz_file filename opts lines = .ok qs →
        ∀ q ∈ qs, q.get_nr_answers ≤ opts.maxanswers) ∧
    (SQ.scan_quiz_file "f.quiz" { default_options with maxanswers := 2 }
        [".. pregunta:\n", "T\n", ".. enunciat:\n", "D\n",
         ".. resposta: +\n", "A1\n", ".. resposta: -\n", "A2\n",
         ".. resposta: -\n", "A3\n"] =
      .error (.scanError "f.quiz" 9
        "exceded max nr of answers per question")) := by
  refine ⟨?_, ?_, by decide⟩
  · intro filename opts lin nlin q qs ha hcnt
    have hq := answer_marker_not_question lin ha
    simp only [SQ.scan_answer, hq, Bool.false_eq_true, if_false, ha, if_true]
    rw [if_pos (by omega)]
  · intro filename opts lines qs hm hrun
    exact scan_lines_count_le filename opts opts.maxanswers (by omega) rfl
      lines 0 .question SQ.Question.initial [] qs rfl (by simp) hrun

/-- The question scanned from the six-line file used by the C7 witness. -/
def scanned_single_question : SQ.Question :=
  { title := " T", descr := "D\n",
    answers := [{ is_correct := true, is_final := false, text := "a\n",
                  weight := 0 }],
    final_answers := [], current_answer := some false }

/-- Witness for `c7_answer_limit_enforced` at concrete inputs. -/
theorem c7_answer_limit_enforced_witness :
    SQ.scan_answer "f.quiz" { default_options with maxanswers := 1 }
        ".. resposta: -\n" 7 one_answer_question [] =
      .error (.scanError "f.quiz" 7
        "exceded max nr of answers per question") ∧
    ∀ q ∈ [scanned_single_question],
      q.get_nr_answers ≤
        ({ default_options with maxanswers := 2 } : SQ.Options).maxanswers :=
  ⟨c7_answer_limit_enforced.1 "f.quiz"
      { default_options with maxanswers := 1 } ".. resposta: -\n" 7
      one_answer_question [] (by decide) (by decide),
    c7_answer_limit_enforced.2.1 "f.quiz"
      { default_options with maxanswers := 2 }
      [".. pregunta:\n", "T\n", ".. enunciat:\n", "D\n", ".. resposta: +\n",
       "a\n"]
      [scanned_single_question] (by decide) (by decide)⟩

/-- A pinned ("final") incorrect answer used by the C5 witness. -/
def final_answer_ex : SQ.Answer :=
  { is_correct := false, is_final := true, text := "n", weight := 0 }

/-- Witness for `c5_shuffle_permutes_only_regular_answers` at concrete
inputs (the identity permutation standing in for the generator draw). -/
theorem c5_shuffle_permutes_only_regular_answers_witness :
    ((one_answer_question.addAnswer default_options
        final_answer_ex).final_answers =
      one_answer_question.final_answers ++ [final_answer_ex] ∧
      (one_answer_question.addAnswer default_options final_answer_ex).answers =
        one_answer_question.answers) ∧
    (SQ.Question.shuffle_answers default_options (fun _ l => l)
        one_answer_question 0).1.final_answers =
      one_answer_question.final_answers :=
  ⟨c5_shuffle_permutes_only_regular_answers.1 default_options
      one_answer_question final_answer_ex (by decide) (by decide),
    (c5_shuffle_permutes_only_regular_answers.2 default_options
      (fun _ l => l) 0 one_answer_question (List.Perm.refl _)).1⟩

/-- Witness for `c8_weighting_pure_and_idempotent` at concrete inputs. -/
theorem c8_weighting_pure_and_idempotent_witness :
    (one_answer_question.compute_weights).compute_weights =
      one_answer_question.compute_weights ∧
    MQ.Question.compute_answer_weight_for_gift mq_eleven true =
      MQ.Question.compute_answer_weight_for_gift mq_eleven true :=
  ⟨c8_weighting_pure_and_idempotent.1 one_answer_question,
    c8_weighting_pure_and_idempotent.2.2 mq_eleven mq_eleven true rfl rfl⟩

